import Mathlib

/-!
# navidrome-helper: a shallow embedding of the import pipeline

The development embeds these pieces of the Go backend:

* `internal/util/normalize.go`  : `NormalizeName`
* `internal/jobs/runner.go`     : `Runner.handle`, `Runner.placeFiles`, `sanitizeName`
* `internal/server/server.go`   : the job construction of `Server.handleImport`
* `internal/library/indexer.go` : `Indexer.Refresh`
* `internal/store/store.go`     : `UpdateJobState`, `AddJobLog`, `ReplaceLibraryIndex`,
  `LibraryExists` and the text form of the timestamps

Go strings are modelled as Lean strings, that is as sequences of Unicode scalar values.
Bytes that are not valid UTF-8 are read by Go's rune loops as U+FFFD, which is neither a
letter, a digit nor white space, so they behave like one more punctuation rune.

The Unicode range tables of Go's standard library are not part of the repository. The
parts of `unicode.IsLetter`, `unicode.IsDigit`, `unicode.IsSpace`, `unicode.IsUpper` and
`unicode.ToLower` that Go hard-codes (ASCII and Latin-1) are written out; the table
lookups behind them are the fields of `RuneTables`, and every general theorem holds for
all tables.
-/

namespace NavidromeHelper

/-! ## Unicode classification (Go package `unicode`) -/

/-- The range tables of Go's `unicode` package that the code consults outside the
hard-coded Latin-1 (for `toLower`: ASCII) range. -/
structure RuneTables where
  /-- Table `unicode.Letter`, consulted for runes above U+00FF. -/
  isLetter : Char → Bool
  /-- Table `unicode.Digit`, consulted for runes above U+00FF. -/
  isDigit : Char → Bool
  /-- Table `unicode.White_Space`, consulted for runes above U+00FF. -/
  isSpace : Char → Bool
  /-- Table `unicode.Upper`, consulted for runes above U+00FF. -/
  isUpper : Char → Bool
  /-- Lower-case mapping of `unicode.CaseRanges`, consulted for runes above U+007F. -/
  toLower : Char → Char

/-- Latin-1 letters of Go's `properties` array (classes Lu, Ll and Lo). -/
def latin1Letter (n : Nat) : Bool :=
  (0x41 ≤ n && n ≤ 0x5A) || (0x61 ≤ n && n ≤ 0x7A) || n == 0xAA || n == 0xB5 || n == 0xBA ||
  (0xC0 ≤ n && n ≤ 0xD6) || (0xD8 ≤ n && n ≤ 0xF6) || (0xF8 ≤ n && n ≤ 0xFF)

/-- Latin-1 upper-case letters of Go's `properties` array (class Lu). -/
def latin1Upper (n : Nat) : Bool :=
  (0x41 ≤ n && n ≤ 0x5A) || (0xC0 ≤ n && n ≤ 0xD6) || (0xD8 ≤ n && n ≤ 0xDE)

/-- Go `unicode.IsLetter`. -/
def unicode_IsLetter (T : RuneTables) (r : Char) : Bool :=
  if r.toNat ≤ 0xFF then latin1Letter r.toNat else T.isLetter r

/-- Go `unicode.IsDigit`. -/
def unicode_IsDigit (T : RuneTables) (r : Char) : Bool :=
  if r.toNat ≤ 0xFF then (0x30 ≤ r.toNat && r.toNat ≤ 0x39) else T.isDigit r

/-- Go `unicode.IsSpace`: in Latin-1 the runes tab, line feed, vertical tab, form feed,
carriage return, space, U+0085 and U+00A0. -/
def unicode_IsSpace (T : RuneTables) (r : Char) : Bool :=
  if r.toNat ≤ 0xFF then
    (r.toNat == 0x09 || r.toNat == 0x0A || r.toNat == 0x0B || r.toNat == 0x0C ||
      r.toNat == 0x0D || r.toNat == 0x20 || r.toNat == 0x85 || r.toNat == 0xA0)
  else T.isSpace r

/-- Go `unicode.IsUpper`. -/
def unicode_IsUpper (T : RuneTables) (r : Char) : Bool :=
  if r.toNat ≤ 0xFF then latin1Upper r.toNat else T.isUpper r

/-- Go `unicode.ToLower`: ASCII is mapped arithmetically, everything else by the table. -/
def unicode_ToLower (T : RuneTables) (r : Char) : Char :=
  if r.toNat ≤ 0x7F then
    (if 0x41 ≤ r.toNat ∧ r.toNat ≤ 0x5A then Char.ofNat (r.toNat + 0x20) else r)
  else T.toLower r

/-! ## Go package `strings` -/

/-- Go `strings.ToLower`: every rune is mapped through `unicode.ToLower`. -/
def strings_ToLower (T : RuneTables) (s : String) : String :=
  ⟨s.data.map (unicode_ToLower T)⟩

/-- Go `strings.TrimSpace`: leading and trailing white space (per `unicode.IsSpace`) is
removed. -/
def strings_TrimSpace (T : RuneTables) (s : String) : String :=
  ⟨((s.data.dropWhile (unicode_IsSpace T)).reverse.dropWhile (unicode_IsSpace T)).reverse⟩

/-- Does `old` occur at the head of the text. -/
def occursAt : List Char → List Char → Bool
  | [], _ => true
  | _ :: _, [] => false
  | o :: os, c :: cs => o == c && occursAt os cs

/-- Scanner of `strings.ReplaceAll` for a non-empty `old`: `skip` counts the runes of the
occurrence of `old` matched last that are still to be passed over. Occurrences are
replaced left to right and do not overlap. -/
def replaceAllFrom (old new : List Char) : Nat → List Char → List Char
  | _, [] => []
  | skip + 1, _ :: cs => replaceAllFrom old new skip cs
  | 0, c :: cs =>
    if occursAt old (c :: cs) then new ++ replaceAllFrom old new (old.length - 1) cs
    else c :: replaceAllFrom old new 0 cs

/-- Go `strings.ReplaceAll(s, old, new)` for a non-empty `old` (every call site of the
repository passes a non-empty literal). -/
def strings_ReplaceAll (s old new : String) : String :=
  ⟨replaceAllFrom old.data new.data 0 s.data⟩

/-- Splitter of `strings.Fields`: `cur` is the field being read, in reverse. -/
def fieldsFrom (T : RuneTables) : List Char → List Char → List (List Char)
  | cur, [] => if cur = [] then [] else [cur.reverse]
  | cur, c :: cs =>
    if unicode_IsSpace T c then
      (if cur = [] then fieldsFrom T [] cs else cur.reverse :: fieldsFrom T [] cs)
    else fieldsFrom T (c :: cur) cs

/-- Go `strings.Fields`: the maximal runs of runes that are not white space. -/
def strings_Fields (T : RuneTables) (s : String) : List String :=
  (fieldsFrom T [] s.data).map String.mk

/-- Concatenation of `strings.Join` on rune lists. -/
def joinChars (sep : List Char) : List (List Char) → List Char
  | [] => []
  | [a] => a
  | a :: b :: rest => a ++ sep ++ joinChars sep (b :: rest)

/-- Go `strings.Join`. -/
def strings_Join (parts : List String) (sep : String) : String :=
  ⟨joinChars sep.data (parts.map String.data)⟩

/-! ## `internal/util/normalize.go` -/

/-- The byte replacer of `NormalizeName`:
`strings.NewReplacer("_", " ", "-", " ", ".", " ", ",", " ", "/", " ", "\\", " ")`. -/
def replacerRune (c : Char) : Char :=
  if c = '_' ∨ c = '-' ∨ c = '.' ∨ c = ',' ∨ c = '/' ∨ c = '\\' then ' ' else c

/-- The `Replace` method of that replacer. -/
def replacer_Replace (s : String) : String := ⟨s.data.map replacerRune⟩

/-- Go `util.NormalizeName`: lowers, trims, removes obvious punctuation, and collapses
spaces. -/
def NormalizeName (T : RuneTables) (s : String) : String :=
  let s := strings_ToLower T (strings_TrimSpace T s)
  if s = "" then ""
  else
    let s := replacer_Replace s
    let b : String :=
      ⟨s.data.filter (fun r => unicode_IsLetter T r || unicode_IsDigit T r || unicode_IsSpace T r)⟩
    let parts := strings_Fields T b
    strings_Join parts " "

/-- Tables with no entry outside Latin-1 and no case mapping outside ASCII. -/
def asciiTables : RuneTables where
  isLetter := fun _ => false
  isDigit := fun _ => false
  isSpace := fun _ => false
  isUpper := fun _ => false
  toLower := fun c => c

/-! ## `internal/store/store.go`: records and the two write operations the runner uses -/

/-- Go `store.JobItem` (the timestamps are set by the store on insert). -/
structure JobItem where
  SourceID : String
  SourceType : String
  Title : String
  Artist : String
  Album : String
  CoverURL : String
  Status : String
  Message : String
  deriving DecidableEq, Repr

/-- Go `store.Job`: the in-memory record handed to the runner. `Progress` is a `float64`
in the source; only the literals 0, 0.05, 0.2, 0.45, 0.7, 0.95 and 1.0 ever flow through
it, and they are kept as exact rationals. -/
structure Job where
  ID : String
  Status : String
  Phase : String
  Message : String
  Progress : ℚ
  Artist : String
  Album : String
  Items : List JobItem
  deriving DecidableEq, Repr

/-- Go `config.Config`, the field the runner reads. -/
structure Config where
  NavidromePath : String
  deriving DecidableEq, Repr

/-- One observable call made by the runner, in program order. -/
inductive Event where
  | updateJobState (id status phase message : String) (progress : ℚ) (finished : Bool)
  | addJobLog (jobID message : String)
  | sleep (ms : Nat)
  | stat (path : String)
  | mkdirAll (path : String)
  | writeFile (path content : String)
  deriving DecidableEq, Repr

/-- Outcomes of the calls that leave the process. Each field is the error text of the
call (`none`: the call succeeds). `execUpdate k` is the outcome of the SQL statement of
the `k`-th `UpdateJobState` call of the run (counted from 0). The result of `AddJobLog`
is discarded at every call site of the runner. `join` is Go's `filepath.Join`. -/
structure World where
  execUpdate : Nat → Option String
  stat : Option String
  mkdirAll : Option String
  writeFile : Option String
  join : List String → String

/-- Number of `UpdateJobState` calls in a trace. -/
def updateCount : List Event → Nat
  | [] => 0
  | Event.updateJobState _ _ _ _ _ _ :: t => updateCount t + 1
  | _ :: t => updateCount t

/-- Go `Store.UpdateJobState`: one `UPDATE` statement; an SQL error `e` is returned as
`fmt.Errorf("update job state: %w", err)`. Returns the error and the extended trace. -/
def UpdateJobState (w : World) (t : List Event) (id status phase message : String)
    (progress : ℚ) (finished : Bool) : Option String × List Event :=
  ((w.execUpdate (updateCount t)).map (fun e => "update job state: " ++ e),
    t ++ [Event.updateJobState id status phase message progress finished])

/-- Go `Store.AddJobLog`, as the runner uses it (result discarded). -/
def AddJobLog (t : List Event) (jobID message : String) : List Event :=
  t ++ [Event.addJobLog jobID message]

/-! ## `internal/jobs/runner.go` -/

def StatusQueued : String := "queued"
def StatusRunning : String := "running"
def StatusCompleted : String := "completed"
def StatusFailed : String := "failed"

def PhaseQueued : String := "queued"
def PhaseFetchingSource : String := "fetching_source"
def PhaseDownloading : String := "downloading"
def PhaseExtracting : String := "extracting"
def PhasePlacing : String := "placing"
def PhaseCleanup : String := "cleanup"
def PhaseCompleted : String := "completed"
def PhaseFailed : String := "failed"

/-- Go `sanitizeName`. -/
def sanitizeName (T : RuneTables) (name : String) : String :=
  if name = "" then ""
  else
    let name := strings_ReplaceAll name ".." ""
    let name := strings_ReplaceAll name "/" "_"
    let name := strings_ReplaceAll name "\\" "_"
    let name := strings_TrimSpace T name
    name

/-- First path component of the target directory in `placeFiles`. -/
def artistComponent (T : RuneTables) (job : Job) : String :=
  let artist := sanitizeName T job.Artist
  if artist = "" then "Unknown Artist" else artist

/-- Second path component of the target directory in `placeFiles`. -/
def albumComponent (T : RuneTables) (job : Job) : String :=
  let album := sanitizeName T job.Album
  if album = "" then "Unknown Album" else album

/-- Go `Runner.placeFiles`, started on trace `t`: the returned error and the trace. -/
def placeFiles (T : RuneTables) (w : World) (cfg : Config) (job : Job) (t : List Event) :
    Option String × List Event :=
  let artist := artistComponent T job
  let album := albumComponent T job
  let targetDir := w.join [cfg.NavidromePath, artist, album]
  let t := t ++ [Event.stat targetDir]
  match w.stat with
  | none =>
    let msg := "Album already exists at " ++ targetDir ++ ", skipping"
    let t := AddJobLog t job.ID msg
    let r := UpdateJobState w t job.ID StatusCompleted PhaseCompleted msg 1.0 true
    (none, r.2)
  | some _ =>
    let t := t ++ [Event.mkdirAll targetDir]
    match w.mkdirAll with
    | some err => (some ("create target dir: " ++ err), t)
    | none =>
      let r := UpdateJobState w t job.ID StatusRunning PhasePlacing
        "Placing files into Navidrome path (stubbed)" 0.7 false
      match r.1 with
      | some err => (some err, r.2)
      | none =>
        let t := AddJobLog r.2 job.ID ("Writing placeholder files to " ++ targetDir)
        let placeholder := w.join [targetDir, "IMPORT_README.txt"]
        let content := "Placeholder import for job " ++ job.ID ++ "\nArtist: " ++ artist ++
          "\nAlbum: " ++ album ++ "\nThis is a stub; wire actual download/extract logic."
        let t := t ++ [Event.writeFile placeholder content]
        match w.writeFile with
        | some err => (some ("write placeholder: " ++ err), t)
        | none => (none, t)

/-- Go `Runner.handle`: the returned error and the trace of calls. -/
def handle (T : RuneTables) (w : World) (cfg : Config) (job : Job) :
    Option String × List Event :=
  let r := UpdateJobState w [] job.ID StatusRunning PhaseFetchingSource
    "Fetching pixeldrain link via doubledouble.top (stubbed)" 0.05 false
  match r.1 with
  | some err => (some err, r.2)
  | none =>
    let t := AddJobLog r.2 job.ID "Fetching pixeldrain link via doubledouble.top (stubbed)"
    let t := t ++ [Event.sleep 300]
    let r := UpdateJobState w t job.ID StatusRunning PhaseDownloading
      "Downloading zip (stubbed)" 0.2 false
    match r.1 with
    | some err => (some err, r.2)
    | none =>
      let t := AddJobLog r.2 job.ID "Downloading zip (stubbed)"
      let t := t ++ [Event.sleep 300]
      let r := UpdateJobState w t job.ID StatusRunning PhaseExtracting
        "Extracting archive (stubbed)" 0.45 false
      match r.1 with
      | some err => (some err, r.2)
      | none =>
        let t := AddJobLog r.2 job.ID "Extracting archive (stubbed)"
        let t := t ++ [Event.sleep 300]
        let p := placeFiles T w cfg job t
        match p.1 with
        | some err =>
          let r := UpdateJobState w p.2 job.ID StatusFailed PhaseFailed err job.Progress true
          let t := AddJobLog r.2 job.ID ("Job failed: " ++ err)
          (some err, t)
        | none =>
          let r := UpdateJobState w p.2 job.ID StatusRunning PhaseCleanup
            "Cleaning up temp files (stubbed)" 0.95 false
          match r.1 with
          | some err => (some err, r.2)
          | none =>
            let t := AddJobLog r.2 job.ID "Cleaning up temp files (stubbed)"
            let t := t ++ [Event.sleep 150]
            let r := UpdateJobState w t job.ID StatusCompleted PhaseCompleted "Completed" 1.0 true
            match r.1 with
            | some err => (some err, r.2)
            | none =>
              let t := AddJobLog r.2 job.ID "Job completed"
              (none, t)

/-- One `UpdateJobState` call: what it writes to the job row. -/
structure StateUpdate where
  status : String
  phase : String
  message : String
  progress : ℚ
  finished : Bool
  deriving DecidableEq, Repr

/-- The `UpdateJobState` calls of a trace, in order. -/
def updates : List Event → List StateUpdate
  | [] => []
  | Event.updateJobState _ s p m g f :: t => ⟨s, p, m, g, f⟩ :: updates t
  | _ :: t => updates t

/-- The messages passed to `AddJobLog` in a trace, in order. -/
def logLines : List Event → List String
  | [] => []
  | Event.addJobLog _ m :: t => m :: logLines t
  | _ :: t => logLines t

/-- A world in which every call succeeds and the target directory is absent; paths are
joined with a slash. -/
def freshWorld : World where
  execUpdate := fun _ => none
  stat := some "stat: no such file or directory"
  mkdirAll := none
  writeFile := none
  join := fun parts => "/".intercalate parts

/-- A sample job as `handleImport` builds it. -/
def sampleJob : Job where
  ID := "job-1"
  Status := StatusQueued
  Phase := PhaseQueued
  Message := "queued"
  Progress := 0
  Artist := "Demo Ensemble"
  Album := "Quiet Album"
  Items := []

/-- The trace of `handle` up to the call of `placeFiles`, when the first three state
updates succeed. -/
def beforePlacing (job : Job) : List Event :=
  [Event.updateJobState job.ID StatusRunning PhaseFetchingSource
      "Fetching pixeldrain link via doubledouble.top (stubbed)" 0.05 false,
    Event.addJobLog job.ID "Fetching pixeldrain link via doubledouble.top (stubbed)",
    Event.sleep 300,
    Event.updateJobState job.ID StatusRunning PhaseDownloading "Downloading zip (stubbed)" 0.2 false,
    Event.addJobLog job.ID "Downloading zip (stubbed)",
    Event.sleep 300,
    Event.updateJobState job.ID StatusRunning PhaseExtracting "Extracting archive (stubbed)" 0.45
      false,
    Event.addJobLog job.ID "Extracting archive (stubbed)",
    Event.sleep 300]

/-- The target directory of `placeFiles`. -/
def targetDir (T : RuneTables) (w : World) (cfg : Config) (job : Job) : String :=
  w.join [cfg.NavidromePath, artistComponent T job, albumComponent T job]

/-- The message of the duplicate short-circuit of `placeFiles`. -/
def skipMessage (T : RuneTables) (w : World) (cfg : Config) (job : Job) : String :=
  "Album already exists at " ++ targetDir T w cfg job ++ ", skipping"

/-- A world in which the target directory is absent and cannot be created. -/
def deniedWorld : World where
  execUpdate := fun _ => none
  stat := some "stat: no such file or directory"
  mkdirAll := some "mkdir /music: permission denied"
  writeFile := none
  join := fun parts => "/".intercalate parts

/-! ## `internal/server/server.go`: job construction in `handleImport` -/

/-- Go `importItem`. -/
structure importItem where
  ID : String
  /-- Field `Type` of the source (a reserved word here). -/
  Type_ : String
  Title : String
  Artist : String
  AlbumID : String
  AlbumTitle : String
  CoverURL : String
  deriving DecidableEq, Repr

/-- Go `importRequest`. -/
structure importRequest where
  Items : List importItem
  deriving DecidableEq, Repr

/-- Is `key` present in the map (Go: `_, ok := dedup[key]`). The map
`map[string]importItem` is kept as a list of entries with distinct keys. -/
def hasKey (dedup : List (String × importItem)) (key : String) : Bool :=
  dedup.any (fun e => e.1 == key)

/-- Body of the first loop of `handleImport`: one submitted item against the map. -/
def dedupStep (T : RuneTables) (dedup : List (String × importItem)) (it : importItem) :
    List (String × importItem) :=
  let it := if it.Type_ = "" then { it with Type_ := "album" } else it
  if strings_ToLower T it.Type_ = "song" ∧ it.AlbumID ≠ "" then
    if hasKey dedup it.AlbumID then dedup
    else dedup ++ [(it.AlbumID,
      { ID := it.AlbumID, Type_ := "album", Title := it.AlbumTitle, Artist := it.Artist,
        AlbumID := it.AlbumID, AlbumTitle := it.AlbumTitle, CoverURL := it.CoverURL })]
  else if hasKey dedup it.ID then dedup
  else dedup ++ [(it.ID, it)]

/-- The map `dedup` after the first loop of `handleImport`, entries in insertion order. -/
def dedupItems (T : RuneTables) (items : List importItem) : List (String × importItem) :=
  items.foldl (dedupStep T) []

/-- The `store.JobItem` appended for a map value in the second loop. -/
def toJobItem (v : importItem) : JobItem where
  SourceID := v.ID
  SourceType := v.Type_
  Title := v.Title
  Artist := v.Artist
  Album := v.AlbumTitle
  CoverURL := v.CoverURL
  Status := StatusQueued
  Message := "queued"

/-- Body of the second loop of `handleImport`; the state is (items, artist, album). -/
def collectStep (acc : List JobItem × String × String) (v : importItem) :
    List JobItem × String × String :=
  let artist := if acc.2.1 = "" then v.Artist else acc.2.1
  let album := if acc.2.2 = "" then v.Title else acc.2.2
  (acc.1 ++ [toJobItem v], artist, album)

/-- Go `Server.handleImport`, from the decoded request to the constructed job (which the
handler then inserts and enqueues). `iter` is the order in which `range` visits the
entries of the map, which Go leaves unspecified; `uuid` is the result of
`uuid.NewString()`. An empty submission is answered with 400 `no items provided`. -/
def handleImport (T : RuneTables)
    (iter : List (String × importItem) → List (String × importItem)) (uuid : String)
    (req : importRequest) : Except String Job :=
  if req.Items.length = 0 then Except.error "no items provided"
  else
    let dedup := dedupItems T req.Items
    let acc := ((iter dedup).map (fun e => e.2)).foldl collectStep ([], "", "")
    Except.ok
      { ID := uuid, Status := StatusQueued, Phase := PhaseQueued, Message := "queued",
        Artist := acc.2.1, Album := acc.2.2, Progress := 0, Items := acc.1 }

/-- The key under which the first loop of `handleImport` files an item: the album id for
a song with a non-empty album id, the item's own id otherwise. -/
def itemKey (T : RuneTables) (it : importItem) : String :=
  if strings_ToLower T it.Type_ = "song" ∧ it.AlbumID ≠ "" then it.AlbumID else it.ID

/-- The request of the scenario of the specification: one song of the album `alb1`. -/
def songRequest : importRequest where
  Items := [{ ID := "s1", Type_ := "song", Title := "Silent Rivers", Artist := "Demo Ensemble",
              AlbumID := "alb1", AlbumTitle := "Quiet Album", CoverURL := "" }]

/-- A request in which a song without album id has the id that a later song names as its
album id. -/
def clashRequest : importRequest where
  Items := [{ ID := "x1", Type_ := "song", Title := "Loose Track", Artist := "Demo Ensemble",
              AlbumID := "", AlbumTitle := "", CoverURL := "" },
            { ID := "s1", Type_ := "song", Title := "Silent Rivers", Artist := "Demo Ensemble",
              AlbumID := "x1", AlbumTitle := "Quiet Album", CoverURL := "" }]

/-! ## Auxiliary definitions used in the statements -/

/-- The map entry that the first loop of `handleImport` files for an item when its key is
still free. -/
def entryOf (T : RuneTables) (it : importItem) : String × importItem :=
  let it := if it.Type_ = "" then { it with Type_ := "album" } else it
  if strings_ToLower T it.Type_ = "song" ∧ it.AlbumID ≠ "" then
    (it.AlbumID,
      { ID := it.AlbumID, Type_ := "album", Title := it.AlbumTitle, Artist := it.Artist,
        AlbumID := it.AlbumID, AlbumTitle := it.AlbumTitle, CoverURL := it.CoverURL })
  else (it.ID, it)

/-- Keys of the map. -/
def keysOf (d : List (String × importItem)) : List String := d.map Prod.fst

/-- An excerpt of Go's tables: the mathematical bold capitals U+1D400 to U+1D419 are
letters of class Lu (`unicode.IsLetter` and `unicode.IsUpper` hold) and have no
lower-case mapping in `unicode.CaseRanges`; no other entry is listed. -/
def mathTables : RuneTables where
  isLetter := fun c => 0x1D400 ≤ c.toNat && c.toNat ≤ 0x1D419
  isDigit := fun _ => false
  isSpace := fun _ => false
  isUpper := fun c => 0x1D400 ≤ c.toNat && c.toNat ≤ 0x1D419
  toLower := fun c => c

/-- The one-rune string U+1D400, MATHEMATICAL BOLD CAPITAL A. -/
def boldCapitalA : String := String.singleton (Char.ofNat 0x1D400)

/-! ## Library index (`internal/store/store.go`) -/

/-- A UTC instant as Go's `time.Time.Date` and `time.Time.Clock` report it, with the
nanosecond within the second. Instants are ordered field by field, most significant
first. -/
structure UTCTime where
  year : Nat
  month : Nat
  day : Nat
  hour : Nat
  minute : Nat
  second : Nat
  nanosecond : Nat
  deriving DecidableEq, Repr

/-- Go `store.LibraryEntry`. -/
structure LibraryEntry where
  Artist : String
  Album : String
  Path : String
  TrackCount : Nat
  UpdatedAt : UTCTime
  artistNorm : String
  albumNorm : String
  deriving DecidableEq, Repr

/-- Go `Store.LibraryExists` on the rows of `library_index`: `SELECT 1 ... WHERE
artist_norm=? AND album_norm=? LIMIT 1`. `scanErr` is an error of the query other than
`sql.ErrNoRows` (`none`: the query runs). -/
def LibraryExists (index : List LibraryEntry) (scanErr : Option String)
    (artistNorm albumNorm : String) : Bool × Option String :=
  match scanErr with
  | some err => (false, some err)
  | none =>
    (index.any (fun e => e.artistNorm == artistNorm && e.albumNorm == albumNorm), none)

/-- The paths passed to `os.Stat` in a trace, in order. -/
def statCalls : List Event → List String
  | [] => []
  | Event.stat path :: t => path :: statCalls t
  | _ :: t => statCalls t

/-- Does `placeFiles` take its skip-as-duplicate branch, the only one that writes the
phase `completed`. -/
def skipsAsDuplicate (T : RuneTables) (w : World) (cfg : Config) (job : Job) : Bool :=
  (updates (placeFiles T w cfg job []).2).any (fun u => u.phase == PhaseCompleted)

/-- A world in which every call succeeds and the target directory exists. -/
def existingWorld : World where
  execUpdate := fun _ => none
  stat := none
  mkdirAll := none
  writeFile := none
  join := fun parts => "/".intercalate parts

/-- A library index that lists the album of `sampleJob`. -/
def sampleIndex : List LibraryEntry :=
  [{ Artist := "Demo Ensemble", Album := "Quiet Album",
     Path := "/music/Demo Ensemble/Quiet Album", TrackCount := 10,
     UpdatedAt := ⟨2024, 1, 1, 0, 0, 0, 0⟩,
     artistNorm := "demo ensemble", albumNorm := "quiet album" }]

/-- The text with which the SQLite driver (`modernc.org/sqlite`) reports the rejection
of a second row with the same primary key: the name of the result code, SQLite's
message, and the extended result code 1555 (`SQLITE_CONSTRAINT_PRIMARYKEY`). -/
def uniqueViolation : String :=
  "constraint failed: UNIQUE constraint failed: " ++
    "library_index.artist_norm, library_index.album_norm (1555)"

/-- The `INSERT` loop of `ReplaceLibraryIndex` inside its transaction: `table` holds
the rows inserted so far. The schema of `bootstrap` declares
`PRIMARY KEY (artist_norm, album_norm)`, so a row whose key is already in the table is
rejected and the error is returned as `fmt.Errorf("insert library_index: %w", err)`. -/
def insertRows : List LibraryEntry → List LibraryEntry → Except String (List LibraryEntry)
  | table, [] => Except.ok table
  | table, e :: es =>
    if table.any (fun r => r.artistNorm == e.artistNorm && r.albumNorm == e.albumNorm) then
      Except.error ("insert library_index: " ++ uniqueViolation)
    else insertRows (table ++ [e]) es

/-- Go `Store.ReplaceLibraryIndex` on the rows of `library_index`: `DELETE`, then one
`INSERT` per entry, then commit; on an error the deferred rollback leaves the table as it
was. Returns the error and the table after the call. -/
def ReplaceLibraryIndex (index : List LibraryEntry) (entries : List LibraryEntry) :
    Option String × List LibraryEntry :=
  match insertRows [] entries with
  | Except.error err => (some err, index)
  | Except.ok table => (none, table)

/-! ## `internal/library/indexer.go` -/

/-- Go `strings.HasPrefix(s, pre)`. -/
def strings_HasPrefix (s pre : String) : Bool := occursAt pre.data s.data

/-- An entry of an artist directory as `os.ReadDir` lists it, with the outcome of
`countAudioFiles` on it (`none`: the walk returns an error). -/
structure AlbumNode where
  name : String
  isDir : Bool
  count : Option Nat

/-- An entry of the managed root as `os.ReadDir` lists it, with the outcome of
`os.ReadDir` on it (`none`: the directory cannot be read). -/
structure ArtistNode where
  name : String
  isDir : Bool
  albums : Option (List AlbumNode)

/-- The directory tree under the managed root: the outcome of `os.ReadDir` on the root
(an error text, or its entries). -/
structure MusicTree where
  root : Except String (List ArtistNode)

/-- Go `context.Context` as `Refresh` uses it: `done k` tells whether `ctx.Done()` is
closed at the `k`-th `select` of the run (counted from 0), `err` is the text of
`ctx.Err()`. -/
structure Context where
  done : Nat → Bool
  err : String

/-- Inner loop of `Indexer.Refresh` over the entries of one artist directory. The state
is the slice `entries` and the number `k` of `select` statements executed so far; an
error is the return of `ctx.Err()`. -/
def scanAlbums (T : RuneTables) (ctx : Context) (join : List String → String) (now : UTCTime)
    (artistName artistPath : String) :
    List AlbumNode → Nat → List LibraryEntry → Except String (List LibraryEntry × Nat)
  | [], k, entries => Except.ok (entries, k)
  | album :: rest, k, entries =>
    if !album.isDir || strings_HasPrefix album.name "." then
      scanAlbums T ctx join now artistName artistPath rest k entries
    else if ctx.done k then Except.error ctx.err
    else
      let albumPath := join [artistPath, album.name]
      match album.count with
      | none => scanAlbums T ctx join now artistName artistPath rest (k + 1) entries
      | some count =>
        let artistNorm := NormalizeName T artistName
        let albumNorm := NormalizeName T album.name
        let entry : LibraryEntry :=
          { Artist := artistName, Album := album.name, Path := albumPath, TrackCount := count,
            UpdatedAt := now, artistNorm := artistNorm, albumNorm := albumNorm }
        scanAlbums T ctx join now artistName artistPath rest (k + 1) (entries ++ [entry])

/-- Outer loop (`audioLoop`) of `Indexer.Refresh` over the entries of the managed root. -/
def scanArtists (T : RuneTables) (ctx : Context) (join : List String → String) (now : UTCTime)
    (cfg : Config) :
    List ArtistNode → Nat → List LibraryEntry → Except String (List LibraryEntry × Nat)
  | [], k, entries => Except.ok (entries, k)
  | artist :: rest, k, entries =>
    if !artist.isDir || strings_HasPrefix artist.name "." then
      scanArtists T ctx join now cfg rest k entries
    else if ctx.done k then Except.error ctx.err
    else
      let artistPath := join [cfg.NavidromePath, artist.name]
      match artist.albums with
      | none => scanArtists T ctx join now cfg rest (k + 1) entries
      | some albumDirs =>
        match scanAlbums T ctx join now artist.name artistPath albumDirs (k + 1) entries with
        | Except.error err => Except.error err
        | Except.ok (entries, k) => scanArtists T ctx join now cfg rest k entries

/-- What a run of `Indexer.Refresh` returns and does: the returned slice and error, the
arguments of its calls of `ReplaceLibraryIndex`, and the table `library_index` after the
run. -/
structure RefreshRun where
  entries : Option (List LibraryEntry)
  err : Option String
  replaceCalls : List (List LibraryEntry)
  index : List LibraryEntry

/-- Go `Indexer.Refresh`, run on the tree `tree` with `library_index` holding `index`;
`now` is `time.Now().UTC()` and `join` is `filepath.Join`. -/
def Refresh (T : RuneTables) (ctx : Context) (join : List String → String) (now : UTCTime)
    (cfg : Config) (tree : MusicTree) (index : List LibraryEntry) : RefreshRun :=
  match tree.root with
  | Except.error err => ⟨none, some ("read navidrome path: " ++ err), [], index⟩
  | Except.ok artistDirs =>
    match scanArtists T ctx join now cfg artistDirs 0 [] with
    | Except.error err => ⟨none, some err, [], index⟩
    | Except.ok (entries, _) =>
      match ReplaceLibraryIndex index entries with
      | (some err, table) => ⟨none, some err, [entries], table⟩
      | (none, table) => ⟨some entries, none, [entries], table⟩

/-- A context that is already cancelled. -/
def cancelledContext : Context where
  done := fun _ => true
  err := "context canceled"

/-- A context that is never cancelled. -/
def liveContext : Context where
  done := fun _ => false
  err := "context canceled"

/-- Path joining with a slash, for the examples. -/
def slashJoin (parts : List String) : String := "/".intercalate parts

/-- A managed root with one artist directory holding one album directory. -/
def sampleTree : MusicTree where
  root := Except.ok [⟨"Demo Ensemble", true, some [⟨"Quiet Album", true, some 10⟩]⟩]

/-- A managed root without any entry. -/
def emptyTree : MusicTree where
  root := Except.ok []

/-- A managed root in which one artist directory holds the album directories `Live` and
`Live!`. -/
def clashTree : MusicTree where
  root := Except.ok [⟨"Demo", true, some [⟨"Live", true, some 3⟩, ⟨"Live!", true, some 5⟩]⟩]

/-! ## Timestamps as text: Go `time.Time.Format(time.RFC3339Nano)` on a UTC time -/

/-- The decimal digit `d` as a character. -/
def digitChar (d : Nat) : Char := Char.ofNat (48 + d)

/-- The `width` low-order decimal digits of `x`, most significant first. -/
def fixedDigits : Nat → Nat → List Char
  | 0, _ => []
  | w + 1, x => fixedDigits w (x / 10) ++ [digitChar (x % 10)]

/-- Go `appendInt(b, x, width)` for `x ≥ 0`: the decimal digits of `x`, padded with
zeros on the left to at least `width` digits. -/
def appendInt (x width : Nat) : List Char :=
  if x < 10 ^ width then fixedDigits width x else Nat.toDigits 10 x

/-- Go `appendNano` for the layout element `.999999999`: nothing for a whole second,
else the dot and the nine digits of the nanosecond with the trailing zeros (and a dot
left alone at the end) removed. -/
def appendNano (nanosec : Nat) : List Char :=
  if nanosec = 0 then []
  else
    let b := '.' :: appendInt nanosec 9
    let b := (b.reverse.dropWhile (fun c => c == '0')).reverse
    if b.getLast? = some '.' then b.dropLast else b

/-- Go `t.Format(time.RFC3339Nano)`, layout `2006-01-02T15:04:05.999999999Z07:00`, for a
time in UTC (the zone is written `Z`). -/
def Format_RFC3339Nano (t : UTCTime) : String :=
  ⟨appendInt t.year 4 ++ ('-' :: (appendInt t.month 2 ++ ('-' :: (appendInt t.day 2 ++
    ('T' :: (appendInt t.hour 2 ++ (':' :: (appendInt t.minute 2 ++
      (':' :: (appendInt t.second 2 ++ (appendNano t.nanosecond ++ ['Z'])))))))))))⟩

/-- Lexicographic order on lists of numbers. -/
def lexLt : List Nat → List Nat → Bool
  | [], [] => false
  | [], _ :: _ => true
  | _ :: _, [] => false
  | a :: as, b :: bs => decide (a < b) || (a == b && lexLt as bs)

/-- Is `t1` an earlier instant than `t2`. -/
def UTCTime.before (t1 t2 : UTCTime) : Bool :=
  lexLt [t1.year, t1.month, t1.day, t1.hour, t1.minute, t1.second, t1.nanosecond]
    [t2.year, t2.month, t2.day, t2.hour, t2.minute, t2.second, t2.nanosecond]

/-- Does `t1` lie in an earlier second than `t2`. -/
def UTCTime.earlierSecond (t1 t2 : UTCTime) : Bool :=
  lexLt [t1.year, t1.month, t1.day, t1.hour, t1.minute, t1.second]
    [t2.year, t2.month, t2.day, t2.hour, t2.minute, t2.second]

/-- A calendar time with a four-digit year. -/
def UTCTime.valid (t : UTCTime) : Prop :=
  t.year < 10000 ∧ 1 ≤ t.month ∧ t.month ≤ 12 ∧ 1 ≤ t.day ∧ t.day ≤ 31 ∧ t.hour < 24 ∧
    t.minute < 60 ∧ t.second < 60 ∧ t.nanosecond < 1000000000

/-- Midnight of 1 January 2024. -/
def newYear : UTCTime := ⟨2024, 1, 1, 0, 0, 0, 0⟩

/-- Half a second after `newYear`. -/
def newYearHalf : UTCTime := ⟨2024, 1, 1, 0, 0, 0, 500000000⟩

/-- One second after `newYear`. -/
def newYearNext : UTCTime := ⟨2024, 1, 1, 0, 0, 1, 0⟩

/-- Is `s` smaller than `t` in the lexicographic order of the code points (for the ASCII
text of a timestamp this is the byte order in which Go and SQLite compare strings). -/
def stringLess (s t : String) : Bool :=
  lexLt (s.data.map Char.toNat) (t.data.map Char.toNat)

/-! ## Further definitions for the statements on `handleImport` and `placeFiles` -/

/-- The first non-empty string of a list, or the empty string. -/
def firstNonEmpty (l : List String) : String :=
  (l.find? (fun s => s ≠ "")).getD ""

/-- A submission of two albums by different artists. -/
def twoAlbums : importRequest where
  Items := [{ ID := "a1", Type_ := "album", Title := "Alpha", Artist := "First",
              AlbumID := "a1", AlbumTitle := "Alpha", CoverURL := "" },
            { ID := "b1", Type_ := "album", Title := "Beta", Artist := "Second",
              AlbumID := "b1", AlbumTitle := "Beta", CoverURL := "" }]

/-- A job whose artist is a single dot and whose album is three dots. -/
def dotJob : Job where
  ID := "job-2"
  Status := StatusQueued
  Phase := PhaseQueued
  Message := "queued"
  Progress := 0
  Artist := "."
  Album := "..."
  Items := []

/-! ## Trace lemmas -/

@[simp] theorem updateCount_append (a b : List Event) :
    updateCount (a ++ b) = updateCount a + updateCount b := by
  induction a with
  | nil => simp [updateCount]
  | cons e t ih => cases e <;> simp [updateCount, ih]; omega

@[simp] theorem updates_append (a b : List Event) :
    updates (a ++ b) = updates a ++ updates b := by
  induction a with
  | nil => simp [updates]
  | cons e t ih => cases e <;> simp [updates, ih]

@[simp] theorem logLines_append (a b : List Event) :
    logLines (a ++ b) = logLines a ++ logLines b := by
  induction a with
  | nil => simp [logLines]
  | cons e t ih => cases e <;> simp [logLines, ih]

theorem handle_of_pre (T : RuneTables) (w : World) (cfg : Config) (job : Job)
    (h0 : w.execUpdate 0 = none) (h1 : w.execUpdate 1 = none) (h2 : w.execUpdate 2 = none) :
    handle T w cfg job =
      match (placeFiles T w cfg job (beforePlacing job)).1 with
      | some err =>
        (some err, (placeFiles T w cfg job (beforePlacing job)).2 ++
          [Event.updateJobState job.ID StatusFailed PhaseFailed err job.Progress true,
            Event.addJobLog job.ID ("Job failed: " ++ err)])
      | none =>
        let p := placeFiles T w cfg job (beforePlacing job)
        let r := UpdateJobState w p.2 job.ID StatusRunning PhaseCleanup
          "Cleaning up temp files (stubbed)" 0.95 false
        match r.1 with
        | some err => (some err, r.2)
        | none =>
          let t := AddJobLog r.2 job.ID "Cleaning up temp files (stubbed)"
          let t := t ++ [Event.sleep 150]
          let r := UpdateJobState w t job.ID StatusCompleted PhaseCompleted "Completed" 1.0 true
          match r.1 with
          | some err => (some err, r.2)
          | none => (none, AddJobLog r.2 job.ID "Job completed") := by
  simp [handle, UpdateJobState, AddJobLog, updateCount, h0, h1, h2, beforePlacing]

/-! ## The runner: claims C1 to C5 -/

/-- C1 (the code departs from the claim): when the target directory already exists and
every store call succeeds, `placeFiles` records the skipped-as-duplicate completion and
returns nil, and `handle` then goes on through the cleanup phase: the state updates of
the run are the three stub phases, the duplicate completion, a `cleanup` update at 0.95
and a second completion, the log holds `Cleaning up temp files (stubbed)`, and the last
persisted message is `Completed`, not the skipped-as-duplicate message. -/
theorem handle_duplicate_runs_cleanup (T : RuneTables) (cfg : Config) (job : Job)
    (mk wr : Option String) (join : List String → String) :
    (handle T (World.mk (fun _ => none) none mk wr join) cfg job).1 = none ∧
    updates (handle T (World.mk (fun _ => none) none mk wr join) cfg job).2 =
      [⟨StatusRunning, PhaseFetchingSource,
          "Fetching pixeldrain link via doubledouble.top (stubbed)", 0.05, false⟩,
        ⟨StatusRunning, PhaseDownloading, "Downloading zip (stubbed)", 0.2, false⟩,
        ⟨StatusRunning, PhaseExtracting, "Extracting archive (stubbed)", 0.45, false⟩,
        ⟨StatusCompleted, PhaseCompleted,
          skipMessage T (World.mk (fun _ => none) none mk wr join) cfg job, 1.0, true⟩,
        ⟨StatusRunning, PhaseCleanup, "Cleaning up temp files (stubbed)", 0.95, false⟩,
        ⟨StatusCompleted, PhaseCompleted, "Completed", 1.0, true⟩] ∧
    logLines (handle T (World.mk (fun _ => none) none mk wr join) cfg job).2 =
      ["Fetching pixeldrain link via doubledouble.top (stubbed)",
        "Downloading zip (stubbed)",
        "Extracting archive (stubbed)",
        skipMessage T (World.mk (fun _ => none) none mk wr join) cfg job,
        "Cleaning up temp files (stubbed)",
        "Job completed"] := by
  rw [handle_of_pre T _ cfg job rfl rfl rfl]
  simp [placeFiles, UpdateJobState, AddJobLog, updateCount, updates, logLines, beforePlacing,
    skipMessage, targetDir]

/-- C2 (the code departs from the claim): in the run of `handle` on an existing target
directory with every store call succeeding, `UpdateJobState` is called with
`finished=true` twice, and the fourth call (status `completed`) is followed by two more
calls, the first of which sets the status back to `running`. -/
theorem handle_duplicate_finishes_twice (T : RuneTables) (cfg : Config) (job : Job)
    (mk wr : Option String) (join : List String → String) :
    ((updates (handle T (World.mk (fun _ => none) none mk wr join) cfg job).2).filter
        (fun u => u.finished)).length = 2 ∧
    ((updates (handle T (World.mk (fun _ => none) none mk wr join) cfg job).2).map
        (fun u => u.status)) =
      [StatusRunning, StatusRunning, StatusRunning, StatusCompleted, StatusRunning,
        StatusCompleted] := by
  rw [handle_of_pre T _ cfg job rfl rfl rfl]
  simp [placeFiles, UpdateJobState, AddJobLog, updateCount, updates, beforePlacing]

/-- C3 (the code departs from the claim): for a job with in-memory `Progress` 0, as
`handleImport` builds it, whose directory creation fails with `err`, the state updates of
the run are the three stub phases (the last at 0.45) followed by the failed transition,
and the failed transition carries progress 0 (the stale `job.Progress`), not 0.45. -/
theorem handle_failed_progress_is_stale (T : RuneTables) (cfg : Config) (job : Job)
    (st err : String) (wr : Option String) (join : List String → String) :
    updates (handle T (World.mk (fun _ => none) (some st) (some err) wr join) cfg
        { job with Progress := 0 }).2 =
      [⟨StatusRunning, PhaseFetchingSource,
          "Fetching pixeldrain link via doubledouble.top (stubbed)", 0.05, false⟩,
        ⟨StatusRunning, PhaseDownloading, "Downloading zip (stubbed)", 0.2, false⟩,
        ⟨StatusRunning, PhaseExtracting, "Extracting archive (stubbed)", 0.45, false⟩,
        ⟨StatusFailed, PhaseFailed, "create target dir: " ++ err, 0, true⟩] ∧
    (0 : ℚ) ≠ 0.45 := by
  rw [handle_of_pre T _ cfg _ rfl rfl rfl]
  refine ⟨?_, by norm_num⟩
  simp [placeFiles, UpdateJobState, AddJobLog, updateCount, updates, beforePlacing]

/-- C4: when the target directory does not exist and every store and filesystem call
succeeds, the (status, phase, progress, finished) values passed to `UpdateJobState` are
exactly fetching_source 0.05, downloading 0.2, extracting 0.45, placing 0.7, cleanup 0.95
(all running, not finished) and completed 1.0 finished, in that order, and `handle`
returns nil. -/
theorem handle_success_sequence (T : RuneTables) (w : World) (cfg : Config) (job : Job)
    (st : String) (hstat : w.stat = some st) (hmk : w.mkdirAll = none)
    (hwr : w.writeFile = none) (hup : ∀ k, w.execUpdate k = none) :
    (handle T w cfg job).1 = none ∧
    (updates (handle T w cfg job).2).map (fun u => (u.status, u.phase, u.progress, u.finished)) =
      [(StatusRunning, PhaseFetchingSource, 0.05, false),
        (StatusRunning, PhaseDownloading, 0.2, false),
        (StatusRunning, PhaseExtracting, 0.45, false),
        (StatusRunning, PhasePlacing, 0.7, false),
        (StatusRunning, PhaseCleanup, 0.95, false),
        (StatusCompleted, PhaseCompleted, 1.0, true)] := by
  rw [handle_of_pre T w cfg job (hup 0) (hup 1) (hup 2)]
  simp [placeFiles, UpdateJobState, AddJobLog, updateCount, updates, beforePlacing, hstat, hmk,
    hwr, hup]

theorem handle_success_sequence_witness :
    freshWorld.stat = some "stat: no such file or directory" ∧
    freshWorld.mkdirAll = none ∧ freshWorld.writeFile = none ∧
    (∀ k, freshWorld.execUpdate k = none) ∧
    ((handle asciiTables freshWorld ⟨"/music"⟩ sampleJob).1 = none ∧
      (updates (handle asciiTables freshWorld ⟨"/music"⟩ sampleJob).2).map
          (fun u => (u.status, u.phase, u.progress, u.finished)) =
        [(StatusRunning, PhaseFetchingSource, 0.05, false),
          (StatusRunning, PhaseDownloading, 0.2, false),
          (StatusRunning, PhaseExtracting, 0.45, false),
          (StatusRunning, PhasePlacing, 0.7, false),
          (StatusRunning, PhaseCleanup, 0.95, false),
          (StatusCompleted, PhaseCompleted, 1.0, true)]) :=
  ⟨rfl, rfl, rfl, fun _ => rfl,
    handle_success_sequence asciiTables freshWorld ⟨"/music"⟩ sampleJob
      "stat: no such file or directory" rfl rfl rfl (fun _ => rfl)⟩

/-- A message whose first rune is not `J` is not a `Job failed: ...` line. -/
theorem ne_jobFailed (m e : String) (h : m.data.head? ≠ some 'J') :
    m ≠ "Job failed: " ++ e := by
  intro hm
  apply h
  rw [hm]
  simp [String.data_append]

/-- C5: when the first three state updates succeed and `placeFiles` returns an error `e`,
`handle` returns `e`; its trace is the trace of `placeFiles` followed by exactly the
update (failed, failed, message `e`, finished) and the log line `Job failed: e`; that
update is the only one of the run with status or phase `failed` or with the finished
flag; the log holds the failure line once; and no update of the run has phase `cleanup`
or `completed`. -/
theorem handle_placement_error (T : RuneTables) (w : World) (cfg : Config) (job : Job)
    (e : String) (h0 : w.execUpdate 0 = none) (h1 : w.execUpdate 1 = none)
    (h2 : w.execUpdate 2 = none)
    (hp : (placeFiles T w cfg job (beforePlacing job)).1 = some e) :
    (handle T w cfg job).1 = some e ∧
    (handle T w cfg job).2 =
      (placeFiles T w cfg job (beforePlacing job)).2 ++
        [Event.updateJobState job.ID StatusFailed PhaseFailed e job.Progress true,
          Event.addJobLog job.ID ("Job failed: " ++ e)] ∧
    (updates (handle T w cfg job).2).filter
        (fun u => u.status = StatusFailed ∨ u.phase = PhaseFailed ∨ u.finished = true) =
      [⟨StatusFailed, PhaseFailed, e, job.Progress, true⟩] ∧
    (logLines (handle T w cfg job).2).count ("Job failed: " ++ e) = 1 ∧
    (∀ u ∈ updates (handle T w cfg job).2, u.phase ≠ PhaseCleanup ∧ u.phase ≠ PhaseCompleted) := by
  rw [handle_of_pre T w cfg job h0 h1 h2]
  simp only [hp]
  refine ⟨trivial, trivial, ?_⟩
  have n1 : "Extracting archive (stubbed)" ≠ "Job failed: " ++ e :=
    ne_jobFailed _ e (by decide)
  have n2 : "Downloading zip (stubbed)" ≠ "Job failed: " ++ e :=
    ne_jobFailed _ e (by decide)
  have n3 : "Fetching pixeldrain link via doubledouble.top (stubbed)" ≠ "Job failed: " ++ e :=
    ne_jobFailed _ e (by decide)
  have n4 : ∀ d : String, "Writing placeholder files to " ++ d ≠ "Job failed: " ++ e :=
    fun d => ne_jobFailed _ e (by simp [String.data_append])
  cases hs : w.stat with
  | none => simp [placeFiles, hs, UpdateJobState, AddJobLog] at hp
  | some st =>
    cases hm : w.mkdirAll with
    | some me =>
      simp [placeFiles, hs, hm, UpdateJobState, AddJobLog, updates, logLines, beforePlacing,
        StatusRunning, StatusFailed, PhaseFailed, PhaseCleanup, PhaseCompleted,
        PhaseFetchingSource, PhaseDownloading, PhaseExtracting, List.count_cons, n1, n2, n3]
    | none =>
      cases hu : w.execUpdate 3 with
      | some ue =>
        simp [placeFiles, hs, hm, hu, UpdateJobState, AddJobLog, updates, logLines,
          beforePlacing, updateCount,
          StatusRunning, StatusFailed, PhaseFailed, PhaseCleanup, PhaseCompleted, PhasePlacing,
          PhaseFetchingSource, PhaseDownloading, PhaseExtracting, List.count_cons, n1, n2, n3]
      | none =>
        cases hw : w.writeFile with
        | none =>
          simp [placeFiles, hs, hm, hu, hw, UpdateJobState, AddJobLog, updateCount,
            beforePlacing] at hp
        | some we =>
          simp [placeFiles, hs, hm, hu, hw, UpdateJobState, AddJobLog, updates, logLines,
            beforePlacing, updateCount,
            StatusRunning, StatusFailed, PhaseFailed, PhaseCleanup, PhaseCompleted, PhasePlacing,
            PhaseFetchingSource, PhaseDownloading, PhaseExtracting, List.count_cons, n1, n2, n3,
            n4]

theorem handle_placement_error_witness :
    deniedWorld.execUpdate 0 = none ∧ deniedWorld.execUpdate 1 = none ∧
    deniedWorld.execUpdate 2 = none ∧
    (placeFiles asciiTables deniedWorld ⟨"/music"⟩ sampleJob (beforePlacing sampleJob)).1 =
      some "create target dir: mkdir /music: permission denied" ∧
    (handle asciiTables deniedWorld ⟨"/music"⟩ sampleJob).1 =
      some "create target dir: mkdir /music: permission denied" :=
  ⟨rfl, rfl, rfl, rfl,
    (handle_placement_error asciiTables deniedWorld ⟨"/music"⟩ sampleJob
      "create target dir: mkdir /music: permission denied" rfl rfl rfl rfl).1⟩

/-! ## Job construction: claims C6 and C7 -/

theorem toLower_album_ne_song (T : RuneTables) : strings_ToLower T "album" ≠ "song" := by
  intro h
  have := congrArg String.length h
  revert this
  simp [strings_ToLower, String.length]

theorem toLower_empty_ne_song (T : RuneTables) : strings_ToLower T "" ≠ "song" := by
  intro h
  have := congrArg String.length h
  revert this
  simp [strings_ToLower, String.length]

theorem hasKey_iff (d : List (String × importItem)) (k : String) :
    hasKey d k = true ↔ k ∈ d.map Prod.fst := by
  simp only [hasKey, List.any_eq_true, beq_iff_eq, List.mem_map]

theorem dedupStep_eq (T : RuneTables) (d : List (String × importItem)) (it : importItem) :
    dedupStep T d it = if hasKey d (entryOf T it).1 then d else d ++ [entryOf T it] := by
  unfold dedupStep entryOf
  by_cases h0 : it.Type_ = ""
  · simp [h0, toLower_album_ne_song]
  · simp only [h0, if_false]
    by_cases h1 : strings_ToLower T it.Type_ = "song" ∧ it.AlbumID ≠ ""
    · simp [h1]
    · simp [h1]

theorem entryOf_fst (T : RuneTables) (it : importItem) : (entryOf T it).1 = itemKey T it := by
  unfold entryOf itemKey
  by_cases h0 : it.Type_ = ""
  · simp [h0, toLower_album_ne_song, toLower_empty_ne_song]
  · simp only [h0, if_false]
    by_cases h1 : strings_ToLower T it.Type_ = "song" ∧ it.AlbumID ≠ ""
    · simp [h1]
    · simp [h1]

theorem entryOf_snd_ID (T : RuneTables) (it : importItem) :
    (entryOf T it).2.ID = itemKey T it := by
  unfold entryOf itemKey
  by_cases h0 : it.Type_ = ""
  · simp [h0, toLower_album_ne_song, toLower_empty_ne_song]
  · simp only [h0, if_false]
    by_cases h1 : strings_ToLower T it.Type_ = "song" ∧ it.AlbumID ≠ ""
    · simp [h1]
    · simp [h1]

theorem dedupStep_keys (T : RuneTables) (d : List (String × importItem)) (it : importItem)
    (k : String) :
    k ∈ keysOf (dedupStep T d it) ↔ k ∈ keysOf d ∨ k = itemKey T it := by
  rw [dedupStep_eq]
  by_cases h : hasKey d (entryOf T it).1 = true
  · rw [if_pos h]
    rw [hasKey_iff, entryOf_fst] at h
    constructor
    · exact Or.inl
    · rintro (h1 | h1)
      · exact h1
      · rw [h1]; exact h
  · rw [if_neg h]
    simp [keysOf, entryOf_fst]

theorem dedupStep_nodup (T : RuneTables) (d : List (String × importItem)) (it : importItem)
    (hd : (keysOf d).Nodup) : (keysOf (dedupStep T d it)).Nodup := by
  rw [dedupStep_eq]
  by_cases h : hasKey d (entryOf T it).1 = true
  · rw [if_pos h]; exact hd
  · rw [if_neg h]
    rw [hasKey_iff] at h
    unfold keysOf at *
    rw [List.map_append, List.nodup_append]
    refine ⟨hd, by simp, ?_⟩
    intro a ha hb
    simp at hb
    subst hb
    exact h ha

theorem foldl_dedup_keys (T : RuneTables) (items : List importItem) :
    ∀ (d : List (String × importItem)) (k : String),
      k ∈ keysOf (items.foldl (dedupStep T) d) ↔
        k ∈ keysOf d ∨ ∃ it ∈ items, itemKey T it = k := by
  induction items with
  | nil => intro d k; simp
  | cons x xs ih =>
    intro d k
    rw [List.foldl_cons, ih, dedupStep_keys]
    constructor
    · rintro ((h | h) | ⟨it, hit, h⟩)
      · exact Or.inl h
      · exact Or.inr ⟨x, List.mem_cons_self _ _, h.symm⟩
      · exact Or.inr ⟨it, List.mem_cons_of_mem _ hit, h⟩
    · rintro (h | ⟨it, hit, h⟩)
      · exact Or.inl (Or.inl h)
      · rcases List.mem_cons.1 hit with rfl | hit
        · exact Or.inl (Or.inr h.symm)
        · exact Or.inr ⟨it, hit, h⟩

theorem foldl_dedup_nodup (T : RuneTables) (items : List importItem) :
    ∀ d : List (String × importItem), (keysOf d).Nodup →
      (keysOf (items.foldl (dedupStep T) d)).Nodup := by
  induction items with
  | nil => intro d hd; exact hd
  | cons x xs ih =>
    intro d hd
    rw [List.foldl_cons]
    exact ih _ (dedupStep_nodup T d x hd)

theorem foldl_dedup_entries (T : RuneTables) (items : List importItem) :
    ∀ (d : List (String × importItem)) (e : String × importItem),
      e ∈ items.foldl (dedupStep T) d →
        e ∈ d ∨ (e.1 ∉ keysOf d ∧
          ∃ it, items.find? (fun x => itemKey T x = e.1) = some it ∧ e = entryOf T it) := by
  induction items with
  | nil => intro d e h; exact Or.inl h
  | cons x xs ih =>
    intro d e h
    rw [List.foldl_cons] at h
    rcases ih _ e h with h1 | ⟨h1, it, hfind, he⟩
    · rw [dedupStep_eq] at h1
      by_cases hk : hasKey d (entryOf T x).1 = true
      · rw [if_pos hk] at h1; exact Or.inl h1
      · rw [if_neg hk] at h1
        rcases List.mem_append.1 h1 with h2 | h2
        · exact Or.inl h2
        · right
          simp at h2
          subst h2
          rw [hasKey_iff] at hk
          refine ⟨hk, x, ?_, rfl⟩
          simp [List.find?, entryOf_fst]
    · right
      rw [dedupStep_keys] at h1
      push_neg at h1
      refine ⟨h1.1, it, ?_, he⟩
      have hx : ¬ itemKey T x = e.1 := fun hh => h1.2 hh.symm
      simp [List.find?, hx, hfind]

theorem foldl_collect_items (vs : List importItem) :
    ∀ acc : List JobItem × String × String,
      (vs.foldl collectStep acc).1 = acc.1 ++ vs.map toJobItem := by
  induction vs with
  | nil => intro acc; simp
  | cons v vs ih => intro acc; rw [List.foldl_cons, ih]; simp [collectStep]

theorem handleImport_ok (T : RuneTables)
    (iter : List (String × importItem) → List (String × importItem)) (uuid : String)
    (req : importRequest) (hne : req.Items ≠ []) :
    ∃ job, handleImport T iter uuid req = Except.ok job ∧ job.ID = uuid ∧
      job.Status = StatusQueued ∧ job.Phase = PhaseQueued ∧ job.Progress = 0 ∧
      job.Items = (iter (dedupItems T req.Items)).map (fun e => toJobItem e.2) := by
  have hlen : ¬ req.Items.length = 0 := by
    intro h; exact hne (List.length_eq_zero.1 h)
  unfold handleImport
  rw [if_neg hlen]
  refine ⟨_, rfl, rfl, rfl, rfl, rfl, ?_⟩
  simp [foldl_collect_items, List.map_map, Function.comp_def]

theorem dedupItems_entry (T : RuneTables) (items : List importItem) (e : String × importItem)
    (he : e ∈ dedupItems T items) :
    ∃ it, items.find? (fun x => itemKey T x = e.1) = some it ∧ e = entryOf T it := by
  rcases foldl_dedup_entries T items [] e he with h | ⟨_, h⟩
  · simp at h
  · exact h

theorem handleImport_sourceIDs (T : RuneTables)
    (iter : List (String × importItem) → List (String × importItem))
    (hiter : ∀ l, (iter l).Perm l) (items : List importItem) :
    ((iter (dedupItems T items)).map (fun e => toJobItem e.2)).map (fun j => j.SourceID) =
      keysOf (iter (dedupItems T items)) := by
  rw [List.map_map]
  unfold keysOf
  apply List.map_congr_left
  intro e he
  have he2 : e ∈ dedupItems T items := (hiter _).mem_iff.1 he
  obtain ⟨it, _, rfl⟩ := dedupItems_entry T items e he2
  simp [toJobItem, entryOf_snd_ID, entryOf_fst]

/-- C7: for every submission with at least one item `handleImport` builds a job with
status `queued`, phase `queued` and progress 0 whose items have pairwise distinct source
ids, and the set of these source ids is the set of keys of the submitted items (the album
id for a song with non-empty album id, the item's id otherwise), whatever the order in
which the map is iterated. -/
theorem handleImport_item_set (T : RuneTables)
    (iter : List (String × importItem) → List (String × importItem)) (uuid : String)
    (req : importRequest) (hiter : ∀ l, (iter l).Perm l) (hne : req.Items ≠ []) :
    ∃ job, handleImport T iter uuid req = Except.ok job ∧
      job.Status = StatusQueued ∧ job.Phase = PhaseQueued ∧ job.Progress = 0 ∧
      (job.Items.map (fun j => j.SourceID)).Nodup ∧
      ∀ k, k ∈ job.Items.map (fun j => j.SourceID) ↔ ∃ it ∈ req.Items, itemKey T it = k := by
  obtain ⟨job, hjob, _, hs, hp, hg, hitems⟩ := handleImport_ok T iter uuid req hne
  refine ⟨job, hjob, hs, hp, hg, ?_, ?_⟩
  · rw [hitems, handleImport_sourceIDs T iter hiter]
    have hperm : (keysOf (iter (dedupItems T req.Items))).Perm (keysOf (dedupItems T req.Items)) :=
      (hiter _).map _
    rw [hperm.nodup_iff]
    exact foldl_dedup_nodup T req.Items [] (by simp [keysOf])
  · intro k
    rw [hitems, handleImport_sourceIDs T iter hiter]
    have hperm : (keysOf (iter (dedupItems T req.Items))).Perm (keysOf (dedupItems T req.Items)) :=
      (hiter _).map _
    rw [hperm.mem_iff]
    unfold dedupItems
    rw [foldl_dedup_keys]
    simp [keysOf]

theorem handleImport_item_set_witness :
    (∀ l : List (String × importItem), (List.reverse l).Perm l) ∧ clashRequest.Items ≠ [] ∧
    ∃ job, handleImport asciiTables List.reverse "job-1" clashRequest = Except.ok job ∧
      job.Status = StatusQueued ∧ job.Phase = PhaseQueued ∧ job.Progress = 0 ∧
      (job.Items.map (fun j => j.SourceID)).Nodup ∧
      ∀ k, k ∈ job.Items.map (fun j => j.SourceID) ↔
        ∃ it ∈ clashRequest.Items, itemKey asciiTables it = k :=
  ⟨fun l => List.reverse_perm l, by simp [clashRequest],
    handleImport_item_set asciiTables List.reverse "job-1" clashRequest
      (fun l => List.reverse_perm l) (by simp [clashRequest])⟩

/-- C6 (amended): every submitted item that is a song (case-insensitively) with a
non-empty album id is represented in the job by an item whose source id is that album id
and whose album is the album title of the first submitted item that claimed that key; the
source type of that job item is `album` when the first claimant is itself a song with a
non-empty album id or has an empty type, and is the first claimant's own type otherwise.
The single-song submission of the scenario yields exactly one job item, of type `album`,
source id `alb1`, album `Quiet Album`. -/
theorem handleImport_song_as_album (T : RuneTables)
    (iter : List (String × importItem) → List (String × importItem)) (uuid : String)
    (req : importRequest) (hiter : ∀ l, (iter l).Perm l) (it : importItem)
    (hit : it ∈ req.Items) (hsong : strings_ToLower T it.Type_ = "song")
    (halb : it.AlbumID ≠ "") :
    (∃ job first ji, handleImport T iter uuid req = Except.ok job ∧
      req.Items.find? (fun x => itemKey T x = it.AlbumID) = some first ∧
      ji ∈ job.Items ∧ ji.SourceID = it.AlbumID ∧ ji.Album = first.AlbumTitle ∧
      ji.SourceType =
        (if strings_ToLower T first.Type_ = "song" ∧ first.AlbumID ≠ "" then "album"
          else if first.Type_ = "" then "album" else first.Type_)) ∧
    (∃ job, handleImport T iter uuid songRequest = Except.ok job ∧
      job.Items.map (fun j => (j.SourceType, j.SourceID, j.Album)) =
        [("album", "alb1", "Quiet Album")]) := by
  constructor
  · have hne : req.Items ≠ [] := List.ne_nil_of_mem hit
    obtain ⟨job, hjob, _, _, _, _, hitems⟩ := handleImport_ok T iter uuid req hne
    have hkey : itemKey T it = it.AlbumID := by simp [itemKey, hsong, halb]
    have hk : it.AlbumID ∈ keysOf (dedupItems T req.Items) := by
      unfold dedupItems
      rw [foldl_dedup_keys]
      exact Or.inr ⟨it, hit, hkey⟩
    obtain ⟨e, he, hek⟩ := List.mem_map.1 hk
    obtain ⟨first, hfind, hfirst⟩ := dedupItems_entry T req.Items e he
    rw [hek] at hfind
    refine ⟨job, first, toJobItem e.2, hjob, hfind, ?_, ?_, ?_, ?_⟩
    · rw [hitems]
      exact List.mem_map.2 ⟨e, (hiter _).mem_iff.2 he, rfl⟩
    · rw [← hek, hfirst]
      simp [toJobItem, entryOf_snd_ID, entryOf_fst]
    · rw [hfirst]
      unfold entryOf toJobItem
      by_cases h0 : first.Type_ = ""
      · simp [h0, toLower_album_ne_song]
      · simp only [h0, if_false]
        by_cases h1 : strings_ToLower T first.Type_ = "song" ∧ first.AlbumID ≠ ""
        · simp [h1]
        · simp [h1]
    · rw [hfirst]
      unfold entryOf toJobItem
      by_cases h0 : first.Type_ = ""
      · simp [h0, toLower_album_ne_song, toLower_empty_ne_song]
      · simp only [h0, if_false]
        by_cases h1 : strings_ToLower T first.Type_ = "song" ∧ first.AlbumID ≠ ""
        · simp [h1]
        · simp [h1]
  · obtain ⟨job, hjob, _, _, _, _, hitems⟩ :=
      handleImport_ok T iter uuid songRequest (by simp [songRequest])
    refine ⟨job, hjob, ?_⟩
    have hsong : strings_ToLower T "song" = "song" := by
      simp [strings_ToLower, unicode_ToLower]
    have hd : dedupItems T songRequest.Items =
        [("alb1", { ID := "alb1", Type_ := "album", Title := "Quiet Album",
                    Artist := "Demo Ensemble", AlbumID := "alb1", AlbumTitle := "Quiet Album",
                    CoverURL := "" })] := by
      simp [dedupItems, dedupStep, songRequest, hsong, hasKey]
    rw [hitems, hd, List.perm_singleton.1 (hiter _)]
    simp [toJobItem]

theorem handleImport_song_as_album_witness :
    (∀ l : List (String × importItem), (List.reverse l).Perm l) ∧
    (⟨"s1", "song", "Silent Rivers", "Demo Ensemble", "alb1", "Quiet Album", ""⟩ : importItem) ∈
      songRequest.Items ∧
    strings_ToLower asciiTables "song" = "song" ∧ ("alb1" : String) ≠ "" ∧
    ∃ job, handleImport asciiTables List.reverse "job-1" songRequest = Except.ok job ∧
      job.Items.map (fun j => (j.SourceType, j.SourceID, j.Album)) =
        [("album", "alb1", "Quiet Album")] :=
  ⟨fun l => List.reverse_perm l, by simp [songRequest], by decide, by decide,
    (handleImport_song_as_album asciiTables List.reverse "job-1" songRequest
      (fun l => List.reverse_perm l)
      ⟨"s1", "song", "Silent Rivers", "Demo Ensemble", "alb1", "Quiet Album", ""⟩
      (by simp [songRequest]) (by decide) (by decide)).2⟩

/-- C6 (counterexample): in the submission `clashRequest` the second item is a song with
album id `x1`, yet the job holds no item of source type `album` with source id `x1`: the
key `x1` was claimed first by a song without album id, which is kept as it is. -/
theorem handleImport_song_not_album :
    ∃ it ∈ clashRequest.Items, strings_ToLower asciiTables it.Type_ = "song" ∧
      it.AlbumID ≠ "" ∧
      ∃ job, handleImport asciiTables (fun l => l) "job-1" clashRequest = Except.ok job ∧
        ¬ ∃ ji ∈ job.Items, ji.SourceType = "album" ∧ ji.SourceID = it.AlbumID := by
  refine ⟨⟨"s1", "song", "Silent Rivers", "Demo Ensemble", "x1", "Quiet Album", ""⟩,
    by simp [clashRequest], by decide, by decide, ?_⟩
  refine ⟨_, rfl, ?_⟩
  decide


/-! ## Normalisation: claims C8 and C9 -/

theorem toNat_ofNat_small (n : Nat) (h : n < 0xD800) : (Char.ofNat n).toNat = n := by
  have hv : n.isValidChar := Or.inl h
  simp only [Char.ofNat, hv, dif_pos, Char.toNat, Char.ofNatAux]
  rfl

theorem dropWhile_congr_mem {α : Type} (p q : α → Bool) (l : List α)
    (h : ∀ x ∈ l, p x = q x) : l.dropWhile p = l.dropWhile q := by
  induction l with
  | nil => rfl
  | cons a t ih =>
    have ha := h a (List.mem_cons_self _ _)
    simp only [List.dropWhile_cons, ha]
    split
    · exact ih (fun x hx => h x (List.mem_cons_of_mem _ hx))
    · rfl

theorem mem_of_mem_dropWhile {α : Type} (p : α → Bool) (l : List α) (x : α)
    (h : x ∈ l.dropWhile p) : x ∈ l :=
  (List.dropWhile_sublist p).subset h

theorem IsSpace_ascii (T : RuneTables) (c : Char) (h : c.toNat ≤ 0x7F) :
    unicode_IsSpace T c = unicode_IsSpace asciiTables c := by
  have h2 : c.toNat ≤ 0xFF := by omega
  simp [unicode_IsSpace, h2]

theorem IsLetter_ascii (T : RuneTables) (c : Char) (h : c.toNat ≤ 0x7F) :
    unicode_IsLetter T c = unicode_IsLetter asciiTables c := by
  have h2 : c.toNat ≤ 0xFF := by omega
  simp [unicode_IsLetter, h2]

theorem IsDigit_ascii (T : RuneTables) (c : Char) (h : c.toNat ≤ 0x7F) :
    unicode_IsDigit T c = unicode_IsDigit asciiTables c := by
  have h2 : c.toNat ≤ 0xFF := by omega
  simp [unicode_IsDigit, h2]

theorem ToLower_ascii (T : RuneTables) (c : Char) (h : c.toNat ≤ 0x7F) :
    unicode_ToLower T c = unicode_ToLower asciiTables c := by
  simp [unicode_ToLower, h]

theorem ToLower_ascii_le (T : RuneTables) (c : Char) (h : c.toNat ≤ 0x7F) :
    (unicode_ToLower T c).toNat ≤ 0x7F := by
  unfold unicode_ToLower
  rw [if_pos h]
  split
  · rename_i hu
    rw [toNat_ofNat_small _ (by omega)]
    omega
  · exact h

theorem replacerRune_ascii_le (c : Char) (h : c.toNat ≤ 0x7F) :
    (replacerRune c).toNat ≤ 0x7F := by
  unfold replacerRune
  split
  · decide
  · exact h

theorem fieldsFrom_congr (T U : RuneTables) (l : List Char)
    (h : ∀ c ∈ l, unicode_IsSpace T c = unicode_IsSpace U c) :
    ∀ cur, fieldsFrom T cur l = fieldsFrom U cur l := by
  induction l with
  | nil => intro cur; rfl
  | cons a t ih =>
    intro cur
    have ha := h a (List.mem_cons_self _ _)
    have ht : ∀ c ∈ t, unicode_IsSpace T c = unicode_IsSpace U c :=
      fun c hc => h c (List.mem_cons_of_mem _ hc)
    simp only [fieldsFrom, ha, ih ht]

theorem TrimSpace_ascii (T : RuneTables) (s : String) (h : ∀ c ∈ s.data, c.toNat ≤ 0x7F) :
    strings_TrimSpace T s = strings_TrimSpace asciiTables s := by
  unfold strings_TrimSpace
  have e1 : s.data.dropWhile (unicode_IsSpace T) = s.data.dropWhile (unicode_IsSpace asciiTables) :=
    dropWhile_congr_mem _ _ _ (fun c hc => IsSpace_ascii T c (h c hc))
  rw [e1]
  have e2 : (s.data.dropWhile (unicode_IsSpace asciiTables)).reverse.dropWhile (unicode_IsSpace T) =
      (s.data.dropWhile (unicode_IsSpace asciiTables)).reverse.dropWhile
        (unicode_IsSpace asciiTables) :=
    dropWhile_congr_mem _ _ _ (fun c hc =>
      IsSpace_ascii T c (h c (mem_of_mem_dropWhile _ _ _ (List.mem_reverse.1 hc))))
  rw [e2]

theorem TrimSpace_subset (T : RuneTables) (s : String) (c : Char)
    (hc : c ∈ (strings_TrimSpace T s).data) : c ∈ s.data := by
  unfold strings_TrimSpace at hc
  simp only [List.mem_reverse] at hc
  exact mem_of_mem_dropWhile _ _ _ (List.mem_reverse.1 (mem_of_mem_dropWhile _ _ _ hc))

/-- On a string of ASCII runes `NormalizeName` does not consult the tables. -/
theorem NormalizeName_ascii (T : RuneTables) (s : String) (h : ∀ c ∈ s.data, c.toNat ≤ 0x7F) :
    NormalizeName T s = NormalizeName asciiTables s := by
  have htrim : ∀ c ∈ (strings_TrimSpace asciiTables s).data, c.toNat ≤ 0x7F :=
    fun c hc => h c (TrimSpace_subset _ _ _ hc)
  have hlow : strings_ToLower T (strings_TrimSpace asciiTables s) =
      strings_ToLower asciiTables (strings_TrimSpace asciiTables s) := by
    unfold strings_ToLower
    congr 1
    exact List.map_congr_left (fun c hc => ToLower_ascii T c (htrim c hc))
  have hlow_le : ∀ c ∈ (strings_ToLower asciiTables (strings_TrimSpace asciiTables s)).data,
      c.toNat ≤ 0x7F := by
    intro c hc
    unfold strings_ToLower at hc
    obtain ⟨x, hx, rfl⟩ := List.mem_map.1 hc
    exact ToLower_ascii_le _ x (htrim x hx)
  have hrep_le : ∀ c ∈
      (replacer_Replace (strings_ToLower asciiTables (strings_TrimSpace asciiTables s))).data,
      c.toNat ≤ 0x7F := by
    intro c hc
    unfold replacer_Replace at hc
    obtain ⟨x, hx, rfl⟩ := List.mem_map.1 hc
    exact replacerRune_ascii_le x (hlow_le x hx)
  unfold NormalizeName
  simp only [TrimSpace_ascii T s h, hlow]
  split
  · rfl
  · have hf : List.filter
          (fun r => unicode_IsLetter T r || unicode_IsDigit T r || unicode_IsSpace T r)
          (replacer_Replace (strings_ToLower asciiTables (strings_TrimSpace asciiTables s))).data =
        List.filter
          (fun r => unicode_IsLetter asciiTables r || unicode_IsDigit asciiTables r ||
            unicode_IsSpace asciiTables r)
          (replacer_Replace (strings_ToLower asciiTables (strings_TrimSpace asciiTables s))).data := by
      apply List.filter_congr
      intro c hc
      rw [IsLetter_ascii T c (hrep_le c hc), IsDigit_ascii T c (hrep_le c hc),
        IsSpace_ascii T c (hrep_le c hc)]
    rw [hf]
    unfold strings_Fields
    rw [fieldsFrom_congr T asciiTables _ (fun c hc =>
      IsSpace_ascii T c (hrep_le c (List.mem_of_mem_filter hc)))]

/-- C8 (amended): for all tables, `NormalizeName("Demo_Ensemble - Lights&Echoes!!")` is
`"demo ensemble lightsechoes"` (the ampersand is removed, not turned into a space), while
`NormalizeName("demo ensemble lights echoes")` is `"demo ensemble lights echoes"`; with
blanks around the ampersand, `"Demo_Ensemble - Lights & Echoes!!"`, the result is
`"demo ensemble lights echoes"` as well. -/
theorem NormalizeName_example (T : RuneTables) :
    NormalizeName T "Demo_Ensemble - Lights&Echoes!!" = "demo ensemble lightsechoes" ∧
    NormalizeName T "demo ensemble lights echoes" = "demo ensemble lights echoes" ∧
    NormalizeName T "Demo_Ensemble - Lights & Echoes!!" = "demo ensemble lights echoes" := by
  refine ⟨?_, ?_, ?_⟩
  · rw [NormalizeName_ascii T _ (by decide)]; decide
  · rw [NormalizeName_ascii T _ (by decide)]; decide
  · rw [NormalizeName_ascii T _ (by decide)]; decide

/-- C8 (counterexample): `NormalizeName("Demo_Ensemble - Lights&Echoes!!")` differs from
`NormalizeName("demo ensemble lights echoes")` and from `"demo ensemble lights echoes"`. -/
theorem NormalizeName_example_differs :
    NormalizeName asciiTables "Demo_Ensemble - Lights&Echoes!!" ≠
      NormalizeName asciiTables "demo ensemble lights echoes" ∧
    NormalizeName asciiTables "Demo_Ensemble - Lights&Echoes!!" ≠
      "demo ensemble lights echoes" := by
  decide
theorem chain_of_forall_ne {α : Type} (x : α) (l : List α) (h : ∀ c ∈ l, c ≠ x) :
    List.Chain' (fun a b => ¬ (a = x ∧ b = x)) l := by
  induction l with
  | nil => exact List.chain'_nil
  | cons a t ih =>
    rw [List.chain'_cons']
    refine ⟨?_, ih (fun c hc => h c (List.mem_cons_of_mem _ hc))⟩
    intro y _ hy
    exact h a (List.mem_cons_self _ _) hy.1

theorem fieldsFrom_spec (T : RuneTables) (l : List Char) :
    ∀ cur : List Char, (∀ c ∈ cur, unicode_IsSpace T c = false) →
      ∀ f ∈ fieldsFrom T cur l,
        f ≠ [] ∧ ∀ c ∈ f, (c ∈ cur ∨ c ∈ l) ∧ unicode_IsSpace T c = false := by
  induction l with
  | nil =>
    intro cur hcur f hf
    unfold fieldsFrom at hf
    split at hf
    · simp at hf
    · rename_i hne
      simp only [List.mem_singleton] at hf
      subst hf
      refine ⟨by simpa using hne, ?_⟩
      intro c hc
      have hc2 : c ∈ cur := List.mem_reverse.1 hc
      exact ⟨Or.inl hc2, hcur c hc2⟩
  | cons a t ih =>
    intro cur hcur f hf
    unfold fieldsFrom at hf
    split at hf
    · split at hf
      · obtain ⟨h1, h2⟩ := ih [] (by simp) f hf
        refine ⟨h1, fun c hc => ⟨?_, (h2 c hc).2⟩⟩
        rcases (h2 c hc).1 with h3 | h3
        · simp at h3
        · exact Or.inr (List.mem_cons_of_mem _ h3)
      · rename_i hne
        rcases List.mem_cons.1 hf with rfl | hf2
        · refine ⟨by simpa using hne, ?_⟩
          intro c hc
          have hc2 : c ∈ cur := List.mem_reverse.1 hc
          exact ⟨Or.inl hc2, hcur c hc2⟩
        · obtain ⟨h1, h2⟩ := ih [] (by simp) f hf2
          refine ⟨h1, fun c hc => ⟨?_, (h2 c hc).2⟩⟩
          rcases (h2 c hc).1 with h3 | h3
          · simp at h3
          · exact Or.inr (List.mem_cons_of_mem _ h3)
    · rename_i hsp
      have hcur2 : ∀ c ∈ a :: cur, unicode_IsSpace T c = false := by
        intro c hc
        rcases List.mem_cons.1 hc with rfl | hc
        · simpa using hsp
        · exact hcur c hc
      obtain ⟨h1, h2⟩ := ih (a :: cur) hcur2 f hf
      refine ⟨h1, fun c hc => ⟨?_, (h2 c hc).2⟩⟩
      rcases (h2 c hc).1 with h3 | h3
      · rcases List.mem_cons.1 h3 with rfl | h4
        · exact Or.inr (List.mem_cons_self _ _)
        · exact Or.inl h4
      · exact Or.inr (List.mem_cons_of_mem _ h3)

theorem joinChars_mem (sep : List Char) (ws : List (List Char)) (c : Char)
    (hc : c ∈ joinChars sep ws) : c ∈ sep ∨ ∃ w ∈ ws, c ∈ w := by
  induction ws with
  | nil => simp [joinChars] at hc
  | cons a rest ih =>
    cases rest with
    | nil => exact Or.inr ⟨a, List.mem_cons_self _ _, by simpa [joinChars] using hc⟩
    | cons b rest2 =>
      simp only [joinChars, List.mem_append] at hc
      rcases hc with (h | h) | h
      · exact Or.inr ⟨a, List.mem_cons_self _ _, h⟩
      · exact Or.inl h
      · rcases ih h with h2 | ⟨w, hw, hcw⟩
        · exact Or.inl h2
        · exact Or.inr ⟨w, List.mem_cons_of_mem _ hw, hcw⟩

theorem joinChars_spaced (ws : List (List Char))
    (h : ∀ w ∈ ws, w ≠ [] ∧ ∀ c ∈ w, c ≠ ' ') :
    (ws ≠ [] → joinChars [' '] ws ≠ []) ∧
    (joinChars [' '] ws).head? ≠ some ' ' ∧
    (joinChars [' '] ws).getLast? ≠ some ' ' ∧
    List.Chain' (fun a b => ¬ (a = ' ' ∧ b = ' ')) (joinChars [' '] ws) := by
  induction ws with
  | nil => simp [joinChars]
  | cons a rest ih =>
    obtain ⟨ha, hac⟩ := h a (List.mem_cons_self _ _)
    cases rest with
    | nil =>
      simp only [joinChars]
      refine ⟨fun _ => ha, ?_, ?_, chain_of_forall_ne _ _ hac⟩
      · intro hh
        exact hac _ (List.mem_of_mem_head? hh) rfl
      · intro hh
        exact hac _ (List.mem_of_mem_getLast? hh) rfl
    | cons b rest2 =>
      obtain ⟨i1, i2, i3, i4⟩ := ih (fun w hw => h w (List.mem_cons_of_mem _ hw))
      have hne := i1 (by simp)
      simp only [joinChars]
      refine ⟨by simp [ha], ?_, ?_, ?_⟩
      · intro hh
        cases a with
        | nil => exact ha rfl
        | cons x xs =>
          simp at hh
          exact hac x (List.mem_cons_self _ _) hh
      · rw [List.getLast?_append_of_ne_nil _ hne]
        exact i3
      · apply List.Chain'.append
        · apply List.Chain'.append (chain_of_forall_ne _ _ hac) (by simp)
          intro x hx y _ hxy
          exact hac x (List.mem_of_mem_getLast? hx) hxy.1
        · exact i4
        · intro x _ y hy hxy
          exact i2 (by rw [Option.mem_def] at hy; rw [hy, hxy.2])

theorem NormalizeName_data (T : RuneTables) (s : String) :
    (NormalizeName T s).data =
      joinChars [' '] (fieldsFrom T []
        (((((strings_TrimSpace T s).data.map (unicode_ToLower T)).map replacerRune)).filter
          (fun r => unicode_IsLetter T r || unicode_IsDigit T r || unicode_IsSpace T r))) := by
  unfold NormalizeName
  simp only
  split
  · rename_i h
    have h2 : (strings_TrimSpace T s).data.map (unicode_ToLower T) = [] := by
      have := congrArg String.data h
      simpa [strings_ToLower] using this
    rw [h2]
    rfl
  · simp [strings_Join, strings_Fields, replacer_Replace, strings_ToLower, List.map_map,
      Function.comp_def]

theorem IsSpace_blank (T : RuneTables) : unicode_IsSpace T ' ' = true := by
  simp [unicode_IsSpace]

theorem ToLower_blank (T : RuneTables) : unicode_ToLower T ' ' = ' ' := by
  simp [unicode_ToLower]

theorem replacerRune_eq (c : Char) : replacerRune c = ' ' ∨ replacerRune c = c := by
  unfold replacerRune
  split
  · exact Or.inl rfl
  · exact Or.inr rfl

theorem NormalizeName_words (T : RuneTables) (s : String) :
    ∃ words : List (List Char), (NormalizeName T s).data = joinChars [' '] words ∧
      ∀ w ∈ words, w ≠ [] ∧ ∀ c ∈ w,
        (unicode_IsLetter T c = true ∨ unicode_IsDigit T c = true) ∧ c ≠ ' ' ∧
          ∃ x ∈ s.data, c = unicode_ToLower T x := by
  refine ⟨_, NormalizeName_data T s, ?_⟩
  intro w hw
  obtain ⟨h1, h2⟩ := fieldsFrom_spec T _ [] (by simp) w hw
  refine ⟨h1, ?_⟩
  intro c hc
  obtain ⟨hmem, hns⟩ := h2 c hc
  have hmem2 := hmem.resolve_left (by simp)
  have hne : c ≠ ' ' := by
    intro hh
    rw [hh, IsSpace_blank] at hns
    exact Bool.noConfusion hns
  rw [List.mem_filter] at hmem2
  obtain ⟨hm, hkeep⟩ := hmem2
  refine ⟨?_, hne, ?_⟩
  · simp only [hns, Bool.or_false, Bool.or_eq_true] at hkeep
    exact hkeep
  · obtain ⟨y, hy, hyc⟩ := List.mem_map.1 hm
    obtain ⟨x, hx, hxy⟩ := List.mem_map.1 hy
    refine ⟨x, TrimSpace_subset T s x hx, ?_⟩
    rcases replacerRune_eq y with h | h
    · rw [h] at hyc
      exact absurd hyc.symm hne
    · rw [h] at hyc
      rw [← hyc, hxy]

/-- C9 (amended): for every string `s` and all tables whose lower-case mapping is
idempotent, `NormalizeName(s)` holds only letters, digits and the space U+0020; every rune
of it is the space or `unicode.ToLower` of a rune of `s`, and is left unchanged by
`unicode.ToLower` (so it is no upper-case letter that has a lower-case form); it has no
leading space, no trailing space and no two adjacent spaces; and it is the join, with one
space, of non-empty words of letters and digits. -/
theorem NormalizeName_canonical (T : RuneTables) (s : String)
    (hT : ∀ c, unicode_ToLower T (unicode_ToLower T c) = unicode_ToLower T c) :
    (∀ c ∈ (NormalizeName T s).data,
      c = ' ' ∨ unicode_IsLetter T c = true ∨ unicode_IsDigit T c = true) ∧
    (∀ c ∈ (NormalizeName T s).data, c = ' ' ∨ ∃ x ∈ s.data, c = unicode_ToLower T x) ∧
    (∀ c ∈ (NormalizeName T s).data, unicode_ToLower T c = c) ∧
    (NormalizeName T s).data.head? ≠ some ' ' ∧
    (NormalizeName T s).data.getLast? ≠ some ' ' ∧
    List.Chain' (fun a b => ¬ (a = ' ' ∧ b = ' ')) (NormalizeName T s).data ∧
    ∃ words : List (List Char), (NormalizeName T s).data = joinChars [' '] words ∧
      ∀ w ∈ words, w ≠ [] ∧ ∀ c ∈ w,
        (unicode_IsLetter T c = true ∨ unicode_IsDigit T c = true) ∧ c ≠ ' ' := by
  obtain ⟨words, hdata, hwords⟩ := NormalizeName_words T s
  have hsp := joinChars_spaced words (fun w hw => ⟨(hwords w hw).1, fun c hc =>
    ((hwords w hw).2 c hc).2.1⟩)
  have hmem : ∀ c ∈ (NormalizeName T s).data, c = ' ' ∨ ∃ w ∈ words, c ∈ w := by
    intro c hc
    rw [hdata] at hc
    rcases joinChars_mem _ _ _ hc with h | h
    · exact Or.inl (by simpa using h)
    · exact Or.inr h
  refine ⟨?_, ?_, ?_, ?_, ?_, ?_, words, hdata, ?_⟩
  · intro c hc
    rcases hmem c hc with h | ⟨w, hw, hcw⟩
    · exact Or.inl h
    · exact Or.inr ((hwords w hw).2 c hcw).1
  · intro c hc
    rcases hmem c hc with h | ⟨w, hw, hcw⟩
    · exact Or.inl h
    · exact Or.inr ((hwords w hw).2 c hcw).2.2
  · intro c hc
    rcases hmem c hc with h | ⟨w, hw, hcw⟩
    · rw [h, ToLower_blank]
    · obtain ⟨x, _, hx⟩ := ((hwords w hw).2 c hcw).2.2
      rw [hx, hT]
  · rw [hdata]; exact hsp.2.1
  · rw [hdata]; exact hsp.2.2.1
  · rw [hdata]; exact hsp.2.2.2
  · intro w hw
    exact ⟨(hwords w hw).1, fun c hc => ⟨((hwords w hw).2 c hc).1, ((hwords w hw).2 c hc).2.1⟩⟩

theorem ToLower_idem_ascii (c : Char) :
    unicode_ToLower asciiTables (unicode_ToLower asciiTables c) = unicode_ToLower asciiTables c := by
  by_cases h : c.toNat ≤ 0x7F
  · by_cases hu : 0x41 ≤ c.toNat ∧ c.toNat ≤ 0x5A
    · have e : unicode_ToLower asciiTables c = Char.ofNat (c.toNat + 0x20) := by
        simp [unicode_ToLower, h, hu]
      have hn : (Char.ofNat (c.toNat + 0x20)).toNat = c.toNat + 0x20 :=
        toNat_ofNat_small _ (by omega)
      rw [e]
      unfold unicode_ToLower
      rw [hn, if_pos (by omega), if_neg (by omega)]
    · have e : unicode_ToLower asciiTables c = c := by
        simp only [unicode_ToLower, h, if_true, hu, if_false]
      rw [e, e]
  · have e : unicode_ToLower asciiTables c = c := by
      simp [unicode_ToLower, h, asciiTables]
    rw [e, e]

theorem NormalizeName_canonical_witness :
    (∀ c, unicode_ToLower asciiTables (unicode_ToLower asciiTables c) =
      unicode_ToLower asciiTables c) ∧
    (∀ c ∈ (NormalizeName asciiTables "Demo_Ensemble - Lights&Echoes!!").data,
      unicode_ToLower asciiTables c = c) ∧
    (NormalizeName asciiTables "Demo_Ensemble - Lights&Echoes!!").data.head? ≠ some ' ' :=
  ⟨ToLower_idem_ascii,
    (NormalizeName_canonical asciiTables "Demo_Ensemble - Lights&Echoes!!"
      ToLower_idem_ascii).2.2.1,
    (NormalizeName_canonical asciiTables "Demo_Ensemble - Lights&Echoes!!"
      ToLower_idem_ascii).2.2.2.1⟩

/-- C9 (counterexample): the upper-case letter U+1D400 has no lower-case mapping, so
`NormalizeName` returns the one-rune string U+1D400 unchanged: its result holds an
upper-case letter. -/
theorem NormalizeName_keeps_upper :
    NormalizeName mathTables boldCapitalA = boldCapitalA ∧
    ∃ c ∈ (NormalizeName mathTables boldCapitalA).data,
      unicode_IsLetter mathTables c = true ∧ unicode_IsUpper mathTables c = true := by
  decide

/-! ## Path components: claim C10 -/

theorem replaceAllFrom_nil (old new : List Char) (k : Nat) :
    replaceAllFrom old new k [] = [] := by
  cases k <;> rfl

theorem removeDots_head (l : List Char) (h : l.head? ≠ some '.') :
    (replaceAllFrom ['.', '.'] [] 0 l).head? ≠ some '.' := by
  cases l with
  | nil => simp [replaceAllFrom]
  | cons c cs =>
    have hc : c ≠ '.' := by simpa using h
    have hc2 : ('.' == c) = false := by
      simp only [beq_eq_false_iff_ne, ne_eq]
      exact fun e => hc e.symm
    simp [replaceAllFrom, occursAt, hc2, hc]

theorem removeDots_chain (l : List Char) :
    ∀ k, List.Chain' (fun a b => ¬ (a = '.' ∧ b = '.')) (replaceAllFrom ['.', '.'] [] k l) := by
  induction l with
  | nil => intro k; rw [replaceAllFrom_nil]; exact List.chain'_nil
  | cons c cs ih =>
    intro k
    cases k with
    | succ k => simp only [replaceAllFrom]; exact ih k
    | zero =>
      simp only [replaceAllFrom]
      split
      · simpa using ih 1
      · rename_i hocc
        rw [List.chain'_cons']
        refine ⟨?_, ih 0⟩
        intro y hy hcy
        obtain ⟨hc, hy2⟩ := hcy
        subst hc
        subst hy2
        refine removeDots_head cs ?_ hy
        intro hh
        apply hocc
        cases cs with
        | nil => simp at hh
        | cons d ds =>
          simp only [List.head?_cons, Option.some.injEq] at hh
          subst hh
          simp [occursAt]

theorem replaceOne_eq_map (o n : Char) (l : List Char) :
    replaceAllFrom [o] [n] 0 l = l.map (fun c => if c = o then n else c) := by
  induction l with
  | nil => rfl
  | cons c cs ih =>
    simp only [replaceAllFrom, occursAt, Bool.and_true, List.length_singleton, Nat.sub_self,
      List.map_cons, ih, beq_iff_eq]
    by_cases h : o = c
    · simp [h]
    · have h2 : ¬ c = o := fun e => h e.symm
      simp [h, h2]

theorem chain_map_replace (o n : Char) (hn : n ≠ '.') (l : List Char)
    (h : List.Chain' (fun a b => ¬ (a = '.' ∧ b = '.')) l) :
    List.Chain' (fun a b => ¬ (a = '.' ∧ b = '.')) (l.map (fun c => if c = o then n else c)) := by
  rw [List.chain'_map]
  refine h.imp ?_
  intro a b hab hh
  apply hab
  obtain ⟨h1, h2⟩ := hh
  constructor
  · by_cases e : a = o
    · rw [if_pos e] at h1; exact absurd h1 hn
    · rw [if_neg e] at h1; exact h1
  · by_cases e : b = o
    · rw [if_pos e] at h2; exact absurd h2 hn
    · rw [if_neg e] at h2; exact h2

theorem not_mem_map_replace (o n x : Char) (hx : x ≠ n) (l : List Char)
    (h : x = o ∨ x ∉ l) : x ∉ l.map (fun c => if c = o then n else c) := by
  intro hm
  obtain ⟨y, hy, hyx⟩ := List.mem_map.1 hm
  by_cases e : y = o
  · rw [if_pos e] at hyx; exact hx hyx.symm
  · rw [if_neg e] at hyx
    subst hyx
    rcases h with h | h
    · exact e h
    · exact h hy

theorem TrimSpace_chain (T : RuneTables) (s : String)
    (h : List.Chain' (fun a b => ¬ (a = '.' ∧ b = '.')) s.data) :
    List.Chain' (fun a b => ¬ (a = '.' ∧ b = '.')) (strings_TrimSpace T s).data := by
  unfold strings_TrimSpace
  have h1 := h.suffix (List.dropWhile_suffix (unicode_IsSpace T))
  have h2 : List.Chain' (fun a b => ¬ (a = '.' ∧ b = '.'))
      (s.data.dropWhile (unicode_IsSpace T)).reverse := by
    rw [List.chain'_reverse]
    exact h1.imp (fun a b hab hh => hab ⟨hh.2, hh.1⟩)
  have h3 := h2.suffix (List.dropWhile_suffix (unicode_IsSpace T))
  show List.Chain' _ (List.reverse _)
  rw [List.chain'_reverse]
  exact h3.imp (fun a b hab hh => hab ⟨hh.2, hh.1⟩)

theorem chain_no_pair {α : Type} (R : α → α → Prop) (l p q : List α) (a b : α)
    (h : List.Chain' R l) (e : l = p ++ a :: b :: q) : R a b := by
  subst e
  have h2 := (List.chain'_split.1 h).2
  exact (List.chain'_cons.1 h2).1

theorem sanitizeName_data (T : RuneTables) (s : String) :
    '/' ∉ (sanitizeName T s).data ∧ '\\' ∉ (sanitizeName T s).data ∧
    List.Chain' (fun a b => ¬ (a = '.' ∧ b = '.')) (sanitizeName T s).data := by
  unfold sanitizeName
  split
  · exact ⟨by simp, by simp, List.chain'_nil⟩
  · simp only
    have e1 : (strings_ReplaceAll s ".." "").data = replaceAllFrom ['.', '.'] [] 0 s.data := rfl
    have e2 : ∀ u : String, (strings_ReplaceAll u "/" "_").data =
        u.data.map (fun c => if c = '/' then '_' else c) :=
      fun u => replaceOne_eq_map '/' '_' u.data
    have e3 : ∀ u : String, (strings_ReplaceAll u "\\" "_").data =
        u.data.map (fun c => if c = '\\' then '_' else c) :=
      fun u => replaceOne_eq_map '\\' '_' u.data
    have c1 := removeDots_chain s.data 0
    rw [← e1] at c1
    have c2 := chain_map_replace '/' '_' (by decide) _ c1
    rw [← e2] at c2
    have c3 := chain_map_replace '\\' '_' (by decide) _ c2
    rw [← e3] at c3
    have m2 : '/' ∉ (strings_ReplaceAll (strings_ReplaceAll s ".." "") "/" "_").data := by
      rw [e2]; exact not_mem_map_replace '/' '_' '/' (by decide) _ (Or.inl rfl)
    have m3 : '/' ∉ (strings_ReplaceAll (strings_ReplaceAll (strings_ReplaceAll s ".." "")
        "/" "_") "\\" "_").data := by
      rw [e3]; exact not_mem_map_replace '\\' '_' '/' (by decide) _ (Or.inr m2)
    have m4 : '\\' ∉ (strings_ReplaceAll (strings_ReplaceAll (strings_ReplaceAll s ".." "")
        "/" "_") "\\" "_").data := by
      rw [e3]; exact not_mem_map_replace '\\' '_' '\\' (by decide) _ (Or.inl rfl)
    exact ⟨fun hh => m3 (TrimSpace_subset T _ _ hh), fun hh => m4 (TrimSpace_subset T _ _ hh),
      TrimSpace_chain T _ c3⟩

theorem component_safe (T : RuneTables) (s fallback : String)
    (hf : '/' ∉ fallback.data ∧ '\\' ∉ fallback.data ∧
      List.Chain' (fun a b => ¬ (a = '.' ∧ b = '.')) fallback.data) :
    '/' ∉ (if sanitizeName T s = "" then fallback else sanitizeName T s).data ∧
    '\\' ∉ (if sanitizeName T s = "" then fallback else sanitizeName T s).data ∧
    List.Chain' (fun a b => ¬ (a = '.' ∧ b = '.'))
      (if sanitizeName T s = "" then fallback else sanitizeName T s).data := by
  split
  · exact hf
  · exact sanitizeName_data T s

/-- C10: for every string `s`, `sanitizeName(s)` holds no `/`, no `\` and no two adjacent
dots (no occurrence of `..`); the removal of `..` alone already leaves no two adjacent
dots; and for every job each of the two path components that `placeFiles` joins under
the managed root holds no `/`, no `\`, no occurrence of `..`, and is not `..`. -/
theorem sanitizeName_safe (T : RuneTables) (s : String) (job : Job) :
    ('/' ∉ (sanitizeName T s).data ∧ '\\' ∉ (sanitizeName T s).data ∧
      ∀ p q : List Char, (sanitizeName T s).data ≠ p ++ '.' :: '.' :: q) ∧
    (∀ p q : List Char, (strings_ReplaceAll s ".." "").data ≠ p ++ '.' :: '.' :: q) ∧
    (∀ comp ∈ [artistComponent T job, albumComponent T job],
      '/' ∉ comp.data ∧ '\\' ∉ comp.data ∧
      (∀ p q : List Char, comp.data ≠ p ++ '.' :: '.' :: q) ∧ comp ≠ "..") := by
  refine ⟨?_, ?_, ?_⟩
  · obtain ⟨h1, h2, h3⟩ := sanitizeName_data T s
    exact ⟨h1, h2, fun p q e => chain_no_pair _ _ p q '.' '.' h3 e ⟨rfl, rfl⟩⟩
  · intro p q e
    exact chain_no_pair _ _ p q '.' '.' (removeDots_chain s.data 0) e ⟨rfl, rfl⟩
  · have key : ∀ (x fallback : String),
        ('/' ∉ fallback.data ∧ '\\' ∉ fallback.data ∧
          List.Chain' (fun a b => ¬ (a = '.' ∧ b = '.')) fallback.data) →
        '/' ∉ (if sanitizeName T x = "" then fallback else sanitizeName T x).data ∧
        '\\' ∉ (if sanitizeName T x = "" then fallback else sanitizeName T x).data ∧
        (∀ p q : List Char,
          (if sanitizeName T x = "" then fallback else sanitizeName T x).data ≠
            p ++ '.' :: '.' :: q) ∧
        (if sanitizeName T x = "" then fallback else sanitizeName T x) ≠ ".." := by
      intro x fallback hf
      obtain ⟨h1, h2, h3⟩ := component_safe T x fallback hf
      have h4 : ∀ p q : List Char,
          (if sanitizeName T x = "" then fallback else sanitizeName T x).data ≠
            p ++ '.' :: '.' :: q :=
        fun p q e => chain_no_pair _ _ p q '.' '.' h3 e ⟨rfl, rfl⟩
      refine ⟨h1, h2, h4, ?_⟩
      intro e
      exact h4 [] [] (by rw [e]; rfl)
    intro comp hcomp
    simp only [List.mem_cons, List.mem_singleton, List.not_mem_nil, or_false] at hcomp
    rcases hcomp with rfl | rfl
    · exact key job.Artist "Unknown Artist"
        ⟨by decide, by decide, chain_of_forall_ne _ _ (by decide)⟩
    · exact key job.Album "Unknown Album"
        ⟨by decide, by decide, chain_of_forall_ne _ _ (by decide)⟩

/-! ## Placement and the library index: claim C11 -/

/-- C11 (amended): for every job and every world, the first call of `placeFiles` is
`os.Stat` on the managed root joined with `sanitizeName(job.Artist)` and
`sanitizeName(job.Album)` (`Unknown Artist` and `Unknown Album` standing in for an empty
result), and this is its only call of `os.Stat`; `placeFiles` takes the
skip-as-duplicate branch exactly when that call succeeds, and then it does nothing but
log the skip message and write the completed state. The library index and
`NormalizeName` take no part in the decision. -/
theorem placeFiles_skip_iff_stat (T : RuneTables) (w : World) (cfg : Config) (job : Job) :
    (placeFiles T w cfg job []).2.head? =
      some (Event.stat (w.join [cfg.NavidromePath,
        (if sanitizeName T job.Artist = "" then "Unknown Artist" else sanitizeName T job.Artist),
        (if sanitizeName T job.Album = "" then "Unknown Album"
          else sanitizeName T job.Album)])) ∧
    statCalls (placeFiles T w cfg job []).2 =
      [w.join [cfg.NavidromePath,
        (if sanitizeName T job.Artist = "" then "Unknown Artist" else sanitizeName T job.Artist),
        (if sanitizeName T job.Album = "" then "Unknown Album"
          else sanitizeName T job.Album)]] ∧
    (skipsAsDuplicate T w cfg job = true ↔ w.stat = none) ∧
    (w.stat = none →
      placeFiles T w cfg job [] =
        (none,
          [Event.stat (targetDir T w cfg job),
            Event.addJobLog job.ID (skipMessage T w cfg job),
            Event.updateJobState job.ID StatusCompleted PhaseCompleted
              (skipMessage T w cfg job) 1.0 true])) := by
  unfold skipsAsDuplicate
  cases hs : w.stat with
  | none =>
    simp [placeFiles, hs, UpdateJobState, AddJobLog, updates, statCalls, artistComponent,
      albumComponent, targetDir, skipMessage]
  | some st =>
    cases hm : w.mkdirAll with
    | some me =>
      simp [placeFiles, hs, hm, updates, statCalls, artistComponent, albumComponent]
    | none =>
      cases hu : w.execUpdate 0 with
      | some ue =>
        simp [placeFiles, hs, hm, hu, UpdateJobState, AddJobLog, updates, updateCount,
          PhasePlacing, PhaseCompleted, statCalls, artistComponent, albumComponent]
      | none =>
        cases hw : w.writeFile <;>
          simp [placeFiles, hs, hm, hu, hw, UpdateJobState, AddJobLog, updates, updateCount,
            PhasePlacing, PhaseCompleted, statCalls, artistComponent, albumComponent]

/-- C11 (counterexample): with the target directory present and an empty library index
`placeFiles` skips although `LibraryExists` on the normalized names is false; with the
target directory absent and the album listed in the index it does not skip although
`LibraryExists` is true. -/
theorem placeFiles_skip_not_index :
    (skipsAsDuplicate asciiTables existingWorld ⟨"/music"⟩ sampleJob = true ∧
      (LibraryExists [] none (NormalizeName asciiTables sampleJob.Artist)
        (NormalizeName asciiTables sampleJob.Album)).1 = false) ∧
    (skipsAsDuplicate asciiTables freshWorld ⟨"/music"⟩ sampleJob = false ∧
      (LibraryExists sampleIndex none (NormalizeName asciiTables sampleJob.Artist)
        (NormalizeName asciiTables sampleJob.Album)).1 = true) := by
  refine ⟨⟨?_, by decide⟩, ⟨?_, by decide⟩⟩
  · simp [skipsAsDuplicate, placeFiles, existingWorld, UpdateJobState, AddJobLog, updates]
  · simp [skipsAsDuplicate, placeFiles, freshWorld, UpdateJobState, AddJobLog, updates,
      updateCount, PhasePlacing, PhaseCompleted]

/-! ## The library indexer: claims C12 and C16 -/

theorem scanArtists_cancelled (T : RuneTables) (ctx : Context) (join : List String → String)
    (now : UTCTime) (cfg : Config) (hdone : ∀ k, ctx.done k = true) (dirs : List ArtistNode) :
    ∀ (k : Nat) (entries : List LibraryEntry),
      scanArtists T ctx join now cfg dirs k entries =
        if dirs.any (fun a => a.isDir && !strings_HasPrefix a.name ".") then
          Except.error ctx.err
        else Except.ok (entries, k) := by
  induction dirs with
  | nil => intro k entries; rfl
  | cons a rest ih =>
    intro k entries
    unfold scanArtists
    by_cases hv : (!a.isDir || strings_HasPrefix a.name ".") = true
    · rw [if_pos hv, ih]
      have hv2 : (a.isDir && !strings_HasPrefix a.name ".") = false := by
        cases h1 : a.isDir <;> cases h2 : strings_HasPrefix a.name "." <;> simp_all
      simp [List.any_cons, hv2]
    · rw [if_neg hv, if_pos (hdone k)]
      have hv2 : (a.isDir && !strings_HasPrefix a.name ".") = true := by
        cases h1 : a.isDir <;> cases h2 : strings_HasPrefix a.name "." <;> simp_all
      simp [List.any_cons, hv2]

/-- C12 (amended): when the cancellation signal has already fired as `Refresh` is called,
then (1) if the managed root cannot be read, `Refresh` returns the read error without
calling `ReplaceLibraryIndex`; (2) if the root is readable and holds at least one
directory whose name does not start with a dot, `Refresh` returns the cancellation error
and never calls `ReplaceLibraryIndex`, so the stored snapshot is unchanged; (3) if the
root is readable and holds no such directory, no `select` is reached: `Refresh` calls
`ReplaceLibraryIndex` once with the empty (complete) scan result and returns it. -/
theorem Refresh_cancelled (T : RuneTables) (ctx : Context) (join : List String → String)
    (now : UTCTime) (cfg : Config) (tree : MusicTree) (index : List LibraryEntry)
    (hdone : ∀ k, ctx.done k = true) :
    (∀ e, tree.root = Except.error e →
      (Refresh T ctx join now cfg tree index).entries = none ∧
      (Refresh T ctx join now cfg tree index).err = some ("read navidrome path: " ++ e) ∧
      (Refresh T ctx join now cfg tree index).replaceCalls = [] ∧
      (Refresh T ctx join now cfg tree index).index = index) ∧
    (∀ dirs, tree.root = Except.ok dirs →
      (∃ a ∈ dirs, a.isDir = true ∧ strings_HasPrefix a.name "." = false) →
      (Refresh T ctx join now cfg tree index).entries = none ∧
      (Refresh T ctx join now cfg tree index).err = some ctx.err ∧
      (Refresh T ctx join now cfg tree index).replaceCalls = [] ∧
      (Refresh T ctx join now cfg tree index).index = index) ∧
    (∀ dirs, tree.root = Except.ok dirs →
      (∀ a ∈ dirs, a.isDir = false ∨ strings_HasPrefix a.name "." = true) →
      (Refresh T ctx join now cfg tree index).entries = some [] ∧
      (Refresh T ctx join now cfg tree index).err = none ∧
      (Refresh T ctx join now cfg tree index).replaceCalls = [[]] ∧
      (Refresh T ctx join now cfg tree index).index = []) := by
  refine ⟨?_, ?_, ?_⟩
  · intro e he
    simp [Refresh, he]
  · intro dirs hd ⟨a, ha, h1, h2⟩
    have hany : dirs.any (fun a => a.isDir && !strings_HasPrefix a.name ".") = true := by
      rw [List.any_eq_true]
      exact ⟨a, ha, by simp [h1, h2]⟩
    simp [Refresh, hd, scanArtists_cancelled T ctx join now cfg hdone, hany]
  · intro dirs hd hall
    have hany : dirs.any (fun a => a.isDir && !strings_HasPrefix a.name ".") = false := by
      rw [List.any_eq_false]
      intro a ha
      rcases hall a ha with h | h <;> simp [h]
    simp [Refresh, hd, scanArtists_cancelled T ctx join now cfg hdone, hany,
      ReplaceLibraryIndex, insertRows]

theorem Refresh_cancelled_witness :
    (∀ k, cancelledContext.done k = true) ∧
    sampleTree.root = Except.ok [⟨"Demo Ensemble", true, some [⟨"Quiet Album", true, some 10⟩]⟩] ∧
    (Refresh asciiTables cancelledContext slashJoin ⟨2024, 1, 1, 0, 0, 0, 0⟩ ⟨"/music"⟩
        sampleTree sampleIndex).err = some "context canceled" ∧
    (Refresh asciiTables cancelledContext slashJoin ⟨2024, 1, 1, 0, 0, 0, 0⟩ ⟨"/music"⟩
        sampleTree sampleIndex).replaceCalls = [] :=
  ⟨fun _ => rfl, rfl,
    ((Refresh_cancelled asciiTables cancelledContext slashJoin ⟨2024, 1, 1, 0, 0, 0, 0⟩
        ⟨"/music"⟩ sampleTree sampleIndex (fun _ => rfl)).2.1 _ rfl
      ⟨_, List.mem_cons_self _ _, rfl, by decide⟩).2.1,
    ((Refresh_cancelled asciiTables cancelledContext slashJoin ⟨2024, 1, 1, 0, 0, 0, 0⟩
        ⟨"/music"⟩ sampleTree sampleIndex (fun _ => rfl)).2.1 _ rfl
      ⟨_, List.mem_cons_self _ _, rfl, by decide⟩).2.2.1⟩

/-- C12 (counterexample): on a managed root without entries and with the cancellation
signal already fired, `Refresh` returns no error, calls `ReplaceLibraryIndex` with the
empty list, and the stored snapshot `sampleIndex` is replaced by the empty table. -/
theorem Refresh_cancelled_empty_root :
    (∀ k, cancelledContext.done k = true) ∧
    (Refresh asciiTables cancelledContext slashJoin ⟨2024, 1, 1, 0, 0, 0, 0⟩ ⟨"/music"⟩
        emptyTree sampleIndex).err = none ∧
    (Refresh asciiTables cancelledContext slashJoin ⟨2024, 1, 1, 0, 0, 0, 0⟩ ⟨"/music"⟩
        emptyTree sampleIndex).replaceCalls = [[]] ∧
    (Refresh asciiTables cancelledContext slashJoin ⟨2024, 1, 1, 0, 0, 0, 0⟩ ⟨"/music"⟩
        emptyTree sampleIndex).index = [] ∧
    sampleIndex ≠ [] := by
  refine ⟨fun _ => rfl, ?_, ?_, ?_, ?_⟩ <;> decide

/-- C16 (the code departs from the claim): on a managed root in which the artist
directory `Demo` holds the album directories `Live` and `Live!`, `Refresh` passes two
entries with the same key (`demo`, `live`) to `ReplaceLibraryIndex`; the second insert is
rejected by the primary key, `Refresh` returns that error, and the table keeps its
previous rows. -/
theorem Refresh_colliding_keys :
    (Refresh asciiTables liveContext slashJoin ⟨2024, 1, 1, 0, 0, 0, 0⟩ ⟨"/music"⟩
        clashTree sampleIndex).replaceCalls.map
        (fun es => es.map (fun e => (e.Artist, e.Album, e.artistNorm, e.albumNorm))) =
      [[("Demo", "Live", "demo", "live"), ("Demo", "Live!", "demo", "live")]] ∧
    (Refresh asciiTables liveContext slashJoin ⟨2024, 1, 1, 0, 0, 0, 0⟩ ⟨"/music"⟩
        clashTree sampleIndex).err = some ("insert library_index: " ++ uniqueViolation) ∧
    (Refresh asciiTables liveContext slashJoin ⟨2024, 1, 1, 0, 0, 0, 0⟩ ⟨"/music"⟩
        clashTree sampleIndex).entries = none ∧
    (Refresh asciiTables liveContext slashJoin ⟨2024, 1, 1, 0, 0, 0, 0⟩ ⟨"/music"⟩
        clashTree sampleIndex).index = sampleIndex := by
  refine ⟨?_, ?_, ?_, ?_⟩ <;> decide

/-! ## Timestamps: claim C13 -/

theorem lexLt_append_of_lt (a b x y : List Nat) (hlen : a.length = b.length)
    (h : lexLt a b = true) : lexLt (a ++ x) (b ++ y) = true := by
  induction a generalizing b with
  | nil =>
    cases b with
    | nil => simp [lexLt] at h
    | cons c cs => simp at hlen
  | cons p ps ih =>
    cases b with
    | nil => simp at hlen
    | cons c cs =>
      simp only [List.length_cons, Nat.add_right_cancel_iff] at hlen
      simp only [lexLt, List.cons_append, Bool.or_eq_true, decide_eq_true_eq,
        Bool.and_eq_true, beq_iff_eq] at h ⊢
      rcases h with h | ⟨h1, h2⟩
      · exact Or.inl h
      · exact Or.inr ⟨h1, ih cs hlen h2⟩

theorem lexLt_append_left (a x y : List Nat) (h : lexLt x y = true) :
    lexLt (a ++ x) (a ++ y) = true := by
  induction a with
  | nil => exact h
  | cons p ps ih => simp [lexLt, ih]

theorem lexLt_block (a b x y : List Nat) (hlen : a.length = b.length)
    (h : lexLt a b = true ∨ (a = b ∧ lexLt x y = true)) :
    lexLt (a ++ x) (b ++ y) = true := by
  rcases h with h | ⟨rfl, h⟩
  · exact lexLt_append_of_lt a b x y hlen h
  · exact lexLt_append_left a x y h

theorem digitChar_toNat (d : Nat) (h : d < 10) : (digitChar d).toNat = 48 + d :=
  toNat_ofNat_small _ (by omega)

theorem fixedDigits_length (w x : Nat) : (fixedDigits w x).length = w := by
  induction w generalizing x with
  | zero => rfl
  | succ w ih => simp [fixedDigits, ih]

theorem fixedDigits_lt (w : Nat) :
    ∀ x y, x < y → y < 10 ^ w →
      lexLt ((fixedDigits w x).map Char.toNat) ((fixedDigits w y).map Char.toNat) = true := by
  induction w with
  | zero => intro x y h1 h2; simp at h2; omega
  | succ w ih =>
    intro x y h1 h2
    simp only [fixedDigits, List.map_append, List.map_cons, List.map_nil]
    have hy : y / 10 < 10 ^ w := by
      rw [Nat.div_lt_iff_lt_mul (by decide)]
      rw [Nat.pow_succ] at h2
      exact h2
    apply lexLt_block
    · simp [fixedDigits_length]
    · by_cases hq : x / 10 < y / 10
      · exact Or.inl (ih _ _ hq hy)
      · right
        have hq2 : x / 10 = y / 10 := by omega
        refine ⟨by rw [hq2], ?_⟩
        rw [digitChar_toNat _ (Nat.mod_lt _ (by decide)),
          digitChar_toNat _ (Nat.mod_lt _ (by decide))]
        simp only [lexLt, Bool.or_eq_true, decide_eq_true_eq, Bool.and_eq_true, beq_iff_eq]
        left
        omega

theorem appendInt_field (w u v : Nat) (x y : List Nat) (hu : u < 10 ^ w) (hv : v < 10 ^ w)
    (h : u < v ∨ (u = v ∧ lexLt x y = true)) :
    lexLt ((appendInt u w).map Char.toNat ++ x) ((appendInt v w).map Char.toNat ++ y) = true := by
  unfold appendInt
  rw [if_pos hu, if_pos hv]
  apply lexLt_block
  · simp [fixedDigits_length]
  · rcases h with h | ⟨rfl, h⟩
    · exact Or.inl (fixedDigits_lt w u v h hv)
    · exact Or.inr ⟨rfl, h⟩

theorem lexLt_cons_same (c : Nat) (x y : List Nat) (h : lexLt x y = true) :
    lexLt (c :: x) (c :: y) = true := by
  simp [lexLt, h]

theorem Format_whole_second_length (t : UTCTime) (hv : t.valid) (hn : t.nanosecond = 0) :
    (Format_RFC3339Nano t).length = 20 := by
  obtain ⟨h1, _, h3, _, h5, h6, h7, h8, _⟩ := hv
  have e4 : (appendInt t.year 4).length = 4 := by
    unfold appendInt; rw [if_pos (by omega)]; exact fixedDigits_length _ _
  have e2 : ∀ u, u < 100 → (appendInt u 2).length = 2 := by
    intro u hu
    unfold appendInt; rw [if_pos (by omega)]; exact fixedDigits_length _ _
  simp [Format_RFC3339Nano, String.length, hn, appendNano, e4, e2 _ (show t.month < 100 by omega),
    e2 _ (show t.day < 100 by omega), e2 _ (show t.hour < 100 by omega),
    e2 _ (show t.minute < 100 by omega), e2 _ (show t.second < 100 by omega)]

theorem Format_lt_of_earlierSecond (t1 t2 : UTCTime) (hv1 : t1.valid) (hv2 : t2.valid)
    (h : t1.earlierSecond t2 = true) :
    stringLess (Format_RFC3339Nano t1) (Format_RFC3339Nano t2) = true := by
  obtain ⟨a1, _, a3, _, a5, a6, a7, a8, _⟩ := hv1
  obtain ⟨b1, _, b3, _, b5, b6, b7, b8, _⟩ := hv2
  simp only [UTCTime.earlierSecond, lexLt, Bool.or_eq_true, decide_eq_true_eq,
    Bool.and_eq_true, beq_iff_eq, Bool.or_false, Bool.false_eq_true, and_false, or_false] at h
  simp only [stringLess, Format_RFC3339Nano, List.map_append, List.map_cons]
  apply appendInt_field 4 _ _ _ _ (by omega) (by omega)
  rcases h with h | ⟨e, h⟩
  · exact Or.inl h
  refine Or.inr ⟨e, lexLt_cons_same _ _ _ ?_⟩
  apply appendInt_field 2 _ _ _ _ (by omega) (by omega)
  rcases h with h | ⟨e, h⟩
  · exact Or.inl h
  refine Or.inr ⟨e, lexLt_cons_same _ _ _ ?_⟩
  apply appendInt_field 2 _ _ _ _ (by omega) (by omega)
  rcases h with h | ⟨e, h⟩
  · exact Or.inl h
  refine Or.inr ⟨e, lexLt_cons_same _ _ _ ?_⟩
  apply appendInt_field 2 _ _ _ _ (by omega) (by omega)
  rcases h with h | ⟨e, h⟩
  · exact Or.inl h
  refine Or.inr ⟨e, lexLt_cons_same _ _ _ ?_⟩
  apply appendInt_field 2 _ _ _ _ (by omega) (by omega)
  rcases h with h | ⟨e, h⟩
  · exact Or.inl h
  refine Or.inr ⟨e, lexLt_cons_same _ _ _ ?_⟩
  apply appendInt_field 2 _ _ _ _ (by omega) (by omega)
  exact Or.inl h

/-- C13 (amended): for two valid UTC instants `t1` before `t2` with four-digit years: if
they lie in different seconds, the text written for `t1` is lexicographically smaller
than the text written for `t2`; if both are whole seconds, both texts have 20 characters
and the text for `t1` is lexicographically smaller. -/
theorem Format_order_preserved (t1 t2 : UTCTime) (hv1 : t1.valid) (hv2 : t2.valid)
    (hlt : t1.before t2 = true) :
    (t1.earlierSecond t2 = true →
      stringLess (Format_RFC3339Nano t1) (Format_RFC3339Nano t2) = true) ∧
    (t1.nanosecond = 0 → t2.nanosecond = 0 →
      (Format_RFC3339Nano t1).length = 20 ∧ (Format_RFC3339Nano t2).length = 20 ∧
      stringLess (Format_RFC3339Nano t1) (Format_RFC3339Nano t2) = true) := by
  refine ⟨Format_lt_of_earlierSecond t1 t2 hv1 hv2, ?_⟩
  intro h1 h2
  refine ⟨Format_whole_second_length t1 hv1 h1, Format_whole_second_length t2 hv2 h2,
    Format_lt_of_earlierSecond t1 t2 hv1 hv2 ?_⟩
  simp only [UTCTime.before, lexLt, Bool.or_eq_true, decide_eq_true_eq,
    Bool.and_eq_true, beq_iff_eq, Bool.or_false, Bool.false_eq_true, and_false, or_false,
    h1, h2, Nat.lt_irrefl] at hlt
  simp only [UTCTime.earlierSecond, lexLt, Bool.or_eq_true, decide_eq_true_eq,
    Bool.and_eq_true, beq_iff_eq, Bool.or_false, Bool.false_eq_true, and_false, or_false]
  exact hlt

theorem Format_order_preserved_witness :
    newYear.valid ∧ newYearNext.valid ∧ newYear.before newYearNext = true ∧
    newYear.earlierSecond newYearNext = true ∧
    stringLess (Format_RFC3339Nano newYear) (Format_RFC3339Nano newYearNext) = true :=
  ⟨by simp [UTCTime.valid, newYear], by simp [UTCTime.valid, newYearNext], by decide, by decide,
    (Format_order_preserved newYear newYearNext (by simp [UTCTime.valid, newYear])
      (by simp [UTCTime.valid, newYearNext]) (by decide)).1 (by decide)⟩

/-- C13 (counterexample): midnight of 1 January 2024 is written `2024-01-01T00:00:00Z`
(20 characters) and the instant half a second later `2024-01-01T00:00:00.5Z`
(22 characters); the later text is lexicographically smaller than the earlier one. -/
theorem Format_order_reversed :
    newYear.valid ∧ newYearHalf.valid ∧ newYear.before newYearHalf = true ∧
    Format_RFC3339Nano newYear = "2024-01-01T00:00:00Z" ∧
    Format_RFC3339Nano newYearHalf = "2024-01-01T00:00:00.5Z" ∧
    (Format_RFC3339Nano newYear).length = 20 ∧
    (Format_RFC3339Nano newYearHalf).length = 22 ∧
    stringLess (Format_RFC3339Nano newYear) (Format_RFC3339Nano newYearHalf) = false ∧
    stringLess (Format_RFC3339Nano newYearHalf) (Format_RFC3339Nano newYear) = true := by
  refine ⟨by simp [UTCTime.valid, newYear], by simp [UTCTime.valid, newYearHalf], ?_, ?_, ?_, ?_,
    ?_, ?_, ?_⟩ <;> decide

/-! ## Determinism of the job construction: claim C14 -/

theorem foldl_collect_artist (vs : List importItem) :
    ∀ acc : List JobItem × String × String,
      (vs.foldl collectStep acc).2.1 =
        if acc.2.1 = "" then firstNonEmpty (vs.map (fun v => v.Artist)) else acc.2.1 := by
  induction vs with
  | nil => intro acc; by_cases h : acc.2.1 = "" <;> simp [h, firstNonEmpty]
  | cons v vs ih =>
    intro acc
    rw [List.foldl_cons, ih]
    by_cases h : acc.2.1 = ""
    · by_cases hv : v.Artist = "" <;> simp [collectStep, h, hv, firstNonEmpty]
    · simp [collectStep, h]

theorem foldl_collect_album (vs : List importItem) :
    ∀ acc : List JobItem × String × String,
      (vs.foldl collectStep acc).2.2 =
        if acc.2.2 = "" then firstNonEmpty (vs.map (fun v => v.Title)) else acc.2.2 := by
  induction vs with
  | nil => intro acc; by_cases h : acc.2.2 = "" <;> simp [h, firstNonEmpty]
  | cons v vs ih =>
    intro acc
    rw [List.foldl_cons, ih]
    by_cases h : acc.2.2 = ""
    · by_cases hv : v.Title = "" <;> simp [collectStep, h, hv, firstNonEmpty]
    · simp [collectStep, h]

theorem handleImport_eq (T : RuneTables)
    (iter : List (String × importItem) → List (String × importItem)) (uuid : String)
    (req : importRequest) (hne : req.Items ≠ []) :
    handleImport T iter uuid req = Except.ok
      { ID := uuid, Status := StatusQueued, Phase := PhaseQueued, Message := "queued",
        Progress := 0,
        Artist := firstNonEmpty ((iter (dedupItems T req.Items)).map (fun e => e.2.Artist)),
        Album := firstNonEmpty ((iter (dedupItems T req.Items)).map (fun e => e.2.Title)),
        Items := (iter (dedupItems T req.Items)).map (fun e => toJobItem e.2) } := by
  have hlen : ¬ req.Items.length = 0 := by
    intro h; exact hne (List.length_eq_zero.1 h)
  unfold handleImport
  rw [if_neg hlen]
  simp [foldl_collect_items, foldl_collect_artist, foldl_collect_album, List.map_map,
    Function.comp_def]

/-- C14 (amended): for every non-empty submission, two runs of `handleImport` (each
with the job id it draws and with its own map iteration) build jobs whose items are the
same up to order: each run's items are the entries of the deduplication map in the order
in which that run's map iteration visits them, and the run's Artist and Album are the
first non-empty artist and title in that order. Two runs whose iterations visit the
entries in the same order build the same sequence of items, the same Artist and the same
Album; in particular so do any two runs on a submission whose items all fall under one
key. -/
theorem handleImport_two_runs (T : RuneTables)
    (iter1 iter2 : List (String × importItem) → List (String × importItem))
    (uuid1 uuid2 : String) (req : importRequest) (h1 : ∀ l, (iter1 l).Perm l)
    (h2 : ∀ l, (iter2 l).Perm l) (hne : req.Items ≠ []) :
    ∃ job1 job2, handleImport T iter1 uuid1 req = Except.ok job1 ∧
      handleImport T iter2 uuid2 req = Except.ok job2 ∧
      job1.Items.Perm job2.Items ∧
      (job1.Items = (iter1 (dedupItems T req.Items)).map (fun e => toJobItem e.2) ∧
        job1.Artist =
          firstNonEmpty ((iter1 (dedupItems T req.Items)).map (fun e => e.2.Artist)) ∧
        job1.Album =
          firstNonEmpty ((iter1 (dedupItems T req.Items)).map (fun e => e.2.Title))) ∧
      (job2.Items = (iter2 (dedupItems T req.Items)).map (fun e => toJobItem e.2) ∧
        job2.Artist =
          firstNonEmpty ((iter2 (dedupItems T req.Items)).map (fun e => e.2.Artist)) ∧
        job2.Album =
          firstNonEmpty ((iter2 (dedupItems T req.Items)).map (fun e => e.2.Title))) ∧
      (iter1 (dedupItems T req.Items) = iter2 (dedupItems T req.Items) →
        job1.Items = job2.Items ∧ job1.Artist = job2.Artist ∧ job1.Album = job2.Album) ∧
      ((dedupItems T req.Items).length ≤ 1 →
        job1.Items = job2.Items ∧ job1.Artist = job2.Artist ∧ job1.Album = job2.Album) := by
  refine ⟨_, _, handleImport_eq T iter1 uuid1 req hne, handleImport_eq T iter2 uuid2 req hne,
    ?_, ⟨rfl, rfl, rfl⟩, ⟨rfl, rfl, rfl⟩, ?_, ?_⟩
  · exact ((h1 _).trans (h2 _).symm).map _
  · intro h
    simp only [h, and_self]
  · intro hlen
    have e : iter1 (dedupItems T req.Items) = iter2 (dedupItems T req.Items) := by
      cases hd : dedupItems T req.Items with
      | nil =>
        rw [List.perm_nil.1 (h1 []), List.perm_nil.1 (h2 [])]
      | cons a rest =>
        cases rest with
        | nil =>
          rw [List.perm_singleton.1 (h1 [a]), List.perm_singleton.1 (h2 [a])]
        | cons b rest2 =>
          rw [hd] at hlen
          simp at hlen
    simp only [e, and_self]

theorem handleImport_two_runs_witness :
    (∀ l : List (String × importItem), (List.reverse l).Perm l) ∧
    (∀ l : List (String × importItem), (id l).Perm l) ∧ twoAlbums.Items ≠ [] ∧
    ∃ job1 job2, handleImport asciiTables List.reverse "job-1" twoAlbums = Except.ok job1 ∧
      handleImport asciiTables id "job-2" twoAlbums = Except.ok job2 ∧
      job1.Items.Perm job2.Items :=
  ⟨fun l => List.reverse_perm l, fun l => List.Perm.refl l, by simp [twoAlbums],
    (handleImport_two_runs asciiTables List.reverse id "job-1" "job-2" twoAlbums
      (fun l => List.reverse_perm l) (fun l => List.Perm.refl l) (by simp [twoAlbums])).imp
      (fun _ h => h.imp (fun _ h => ⟨h.1, h.2.1, h.2.2.1⟩))⟩

/-- C14 (counterexample): on the submission `twoAlbums` a run whose map iteration visits
the entries in insertion order and a run whose iteration visits them in the opposite
order (both are orders Go may choose) build jobs with different item sequences, different
Artist and different Album. -/
theorem handleImport_order_dependent :
    (∀ l : List (String × importItem), (List.reverse l).Perm l) ∧
    ∃ job1 job2, handleImport asciiTables (fun l => l) "job-1" twoAlbums = Except.ok job1 ∧
      handleImport asciiTables List.reverse "job-1" twoAlbums = Except.ok job2 ∧
      job1.Items ≠ job2.Items ∧
      (job1.Artist = "First" ∧ job2.Artist = "Second") ∧
      (job1.Album = "Alpha" ∧ job2.Album = "Beta") := by
  refine ⟨fun l => List.reverse_perm l, _, _, rfl, rfl, ?_, ?_, ?_⟩ <;> decide

/-! ## Shape of the path components: claim C15 -/

theorem component_shape (T : RuneTables) (s fallback : String) (hne : fallback ≠ "")
    (hdot : fallback ≠ ".")
    (hf : '/' ∉ fallback.data ∧ '\\' ∉ fallback.data ∧
      List.Chain' (fun a b => ¬ (a = '.' ∧ b = '.')) fallback.data) :
    (if sanitizeName T s = "" then fallback else sanitizeName T s) ≠ "" ∧
    (if sanitizeName T s = "" then fallback else sanitizeName T s) ≠ ".." ∧
    '/' ∉ (if sanitizeName T s = "" then fallback else sanitizeName T s).data ∧
    '\\' ∉ (if sanitizeName T s = "" then fallback else sanitizeName T s).data ∧
    ((if sanitizeName T s = "" then fallback else sanitizeName T s) = "." ↔
      sanitizeName T s = ".") := by
  obtain ⟨h1, h2, h3⟩ := component_safe T s fallback hf
  refine ⟨?_, ?_, h1, h2, ?_⟩
  · split
    · exact hne
    · assumption
  · intro e
    rw [e] at h3
    exact chain_no_pair _ _ [] [] '.' '.' h3 rfl ⟨rfl, rfl⟩
  · split
    · rename_i h
      constructor
      · intro e; exact absurd e hdot
      · intro e; rw [h] at e; exact absurd e (by decide)
    · exact Iff.rfl

/-- C15 (amended): for every job, each of the two path components that `placeFiles`
joins under the managed root is non-empty, is not `..` and holds neither `/` nor `\`;
the artist component is `.` exactly when `sanitizeName(job.Artist)` is `.`, and the album
component is `.` exactly when `sanitizeName(job.Album)` is `.`. -/
theorem placeFiles_components (T : RuneTables) (job : Job) :
    (∀ comp ∈ [artistComponent T job, albumComponent T job],
      comp ≠ "" ∧ comp ≠ ".." ∧ '/' ∉ comp.data ∧ '\\' ∉ comp.data) ∧
    (artistComponent T job = "." ↔ sanitizeName T job.Artist = ".") ∧
    (albumComponent T job = "." ↔ sanitizeName T job.Album = ".") := by
  have ha := component_shape T job.Artist "Unknown Artist" (by decide) (by decide)
    ⟨by decide, by decide, chain_of_forall_ne _ _ (by decide)⟩
  have hb := component_shape T job.Album "Unknown Album" (by decide) (by decide)
    ⟨by decide, by decide, chain_of_forall_ne _ _ (by decide)⟩
  refine ⟨?_, ha.2.2.2.2, hb.2.2.2.2⟩
  intro comp hcomp
  simp only [List.mem_cons, List.mem_singleton, List.not_mem_nil, or_false] at hcomp
  rcases hcomp with rfl | rfl
  · exact ⟨ha.1, ha.2.1, ha.2.2.1, ha.2.2.2.1⟩
  · exact ⟨hb.1, hb.2.1, hb.2.2.1, hb.2.2.2.1⟩

/-- C15 (counterexample): for the job with artist `.` and album `...` both path
components that `placeFiles` joins under the managed root are `.`. -/
theorem placeFiles_dot_components :
    artistComponent asciiTables dotJob = "." ∧ albumComponent asciiTables dotJob = "." := by
  decide

end NavidromeHelper
